import Mathlib

/-! # reserve-stats: trade-log assembly (crawler v4), blockchain utilities, Huobi import

A shallow embedding of

* `tradelogs/crawler_v4.go`: `fillFeeDistributed`, `fillAddReserveToStorage`,
  `fillRebateWalletSet`, `assembleTradeLogsV4`;
* `lib/blockchain/utils.go`: `IsBurnable`, `floatToBigInt`, `EthToWei`;
* `accounting/cmd/accounting-huobi-import-data/main.go`: `importTradeHistory`.

Conventions.

* A Go function returning `(T, error)` is an `Except Err T`; the pair
  `([]common.TradeLog, error)` returned by `assembleTradeLogsV4` is kept as a pair
  (`Outcome.ret result err`) because the source returns a non-nil slice together
  with a non-nil error on some paths. A nil slice and an empty slice are both `[]`.
* `*big.Int` is `Option Int` (`none` is the nil pointer, which the zero
  `common.TradeLog{}` holds); calling `Mul` on a nil operand panics, which is
  the outcome `Outcome.panic`.
* `uint64` is a `Nat` below `2 ^ 64`; the conversion `int64(x)` is written out.
* A topic hash is represented by its `Hex()` rendering, the string the source
  switches on.
* Collaborators whose code is outside `crawler_v4.go` (contract decoders, receipt
  fetcher, timestamp resolver, `fillKyberTradeV4`, `updateBasicInfo`) and the
  constants `kyberTradeEvent`, `errUnknownLogTopic` are fields of `Crawler`.
* Logging (`fmt.Println`, `sugar.Infow`) has no effect on the returned values and
  is not represented.
-/

namespace Tradelogs

/-- Constant `addReserveToStorageEvent` of `crawler_v4.go`. -/
def addReserveToStorageEvent : String :=
  "0x4649526e2876a69a4439244e5d8a32a6940a44a92b5390fdde1c22a26cc54004"

/-- Constant `reserveRebateWalletSetEvent` of `crawler_v4.go`. -/
def reserveRebateWalletSetEvent : String :=
  "0x42cac9e63e37f62d5689493d04887a67fe3c68e1d3763c3f0890e1620a0465b3"

/-- Constant `feeDistributedEvent` of `crawler_v4.go`. -/
def feeDistributedEvent : String :=
  "0x53e2e1b5ab64e0a76fcc6a932558eba265d4e58c512401a7d776ae0f8fc08994"

/-- Go `error` values: `errors.New`, the sentinel `errUnknownLogTopic` is a field of
the crawler, and `errors.Wrap`/`errors.Wrapf` (the format string is kept unexpanded). -/
inductive Err where
  | msg (s : String)
  | wrap (cause : Err) (s : String)
deriving DecidableEq, Repr

/-- The fields of `types.Log` the assembler reads; `Data` stands for the payload
handed to the decoders. -/
structure Log where
  Topics : List String
  Data : List Nat
  BlockNumber : Nat
  TxHash : String
  Index : Nat
  Removed : Bool
deriving DecidableEq, Repr

/-- The fields of `types.Receipt` relevant here. -/
structure Receipt where
  Status : Nat
  GasUsed : Nat
deriving DecidableEq, Repr

/-- The fields of `common.TradeLog` the assembler touches; every other field is
carried in `Rest`. -/
structure TradeLog (Rest : Type) where
  TransactionHash : String
  Timestamp : Nat
  GasUsed : Nat
  GasPrice : Option Int
  TransactionFee : Option Int
  Rest : Rest
deriving DecidableEq, Repr

/-- The zero value `common.TradeLog{}`. -/
def TradeLog.zero {Rest : Type} [Inhabited Rest] : TradeLog Rest :=
  { TransactionHash := "", Timestamp := 0, GasUsed := 0, GasPrice := none,
    TransactionFee := none, Rest := default }

/-- Go conversion `int64(x)` of a `uint64` value: the same 64 bits read as two's
complement. -/
def int64OfUint64 (x : Nat) : Int :=
  if x % 2 ^ 64 < 2 ^ 63 then ((x % 2 ^ 64 : Nat) : Int)
  else ((x % 2 ^ 64 : Nat) : Int) - 2 ^ 64

/-- The crawler's collaborators and the package-level values that live outside
`crawler_v4.go`. `fillKyberTradeV4` already has `crawler.volumeExludedReserves`
applied; timeouts are dropped. -/
structure Crawler (Fee Reserve Rest : Type) where
  kyberTradeEvent : String
  errUnknownLogTopic : Err
  ParseFeeDistributed : Log → Except Err Fee
  ParseAddReserveToStorage : Log → Except Err Reserve
  fillKyberTradeV4 : TradeLog Rest → Log → Except Err (TradeLog Rest)
  getTransactionReceipt : String → Except Err Receipt
  Resolve : Nat → Except Err Nat
  updateBasicInfo : Log → TradeLog Rest → Except Err (TradeLog Rest)

/-- What a call of `assembleTradeLogsV4` does: it panics, or it returns the pair
`(result, err)`. -/
inductive Outcome (Rest : Type) where
  | panic
  | ret (result : List (TradeLog Rest)) (err : Option Err)
deriving DecidableEq, Repr

section Assembler

variable {Fee Reserve Rest : Type} [Inhabited Rest]

/-- `Crawler.fillAddReserveToStorage`: decode, print, return the decode error if any. -/
def fillAddReserveToStorage (crawler : Crawler Fee Reserve Rest) (log : Log) : Option Err :=
  match crawler.ParseAddReserveToStorage log with
  | .error err => some err
  | .ok _ => none

/-- `fillRebateWalletSet`: the body is `return nil`. -/
def fillRebateWalletSet (_log : Log) : Option Err := none

/-- `Crawler.fillFeeDistributed`: decode, print, return the decode error if any. -/
def fillFeeDistributed (crawler : Crawler Fee Reserve Rest) (log : Log) : Option Err :=
  match crawler.ParseFeeDistributed log with
  | .error err => some err
  | .ok _ => none

/-- The `for _, log := range eventLogs` loop of `assembleTradeLogsV4`, started with
the current values of the local variables `result` and `tradeLog`. -/
def assembleLoop (crawler : Crawler Fee Reserve Rest) :
    List Log → List (TradeLog Rest) → TradeLog Rest → Outcome Rest
  | [], result, _ => .ret result none
  | log :: rest, result, tradeLog =>
    if log.Removed then assembleLoop crawler rest result tradeLog
    else
      match log.Topics with
      | [] => .ret result (some (.msg "log item has no topic"))
      | topic :: _ =>
        if topic = feeDistributedEvent then
          match fillFeeDistributed crawler log with
          | some err => .ret [] (some err)
          | none => assembleLoop crawler rest result tradeLog
        else if topic = crawler.kyberTradeEvent then
          match crawler.fillKyberTradeV4 tradeLog log with
          | .error err => .ret [] (some err)
          | .ok tradeLog =>
            match crawler.getTransactionReceipt tradeLog.TransactionHash with
            | .error err =>
              .ret [] (some (.wrap err "failed to get transaction receipt tx: %v"))
            | .ok receipt =>
              let tradeLog := { tradeLog with GasUsed := receipt.GasUsed }
              match crawler.Resolve log.BlockNumber with
              | .error err =>
                .ret [] (some (.wrap err "failed to resolve timestamp by block_number %v"))
              | .ok ts =>
                let tradeLog := { tradeLog with Timestamp := ts }
                match crawler.updateBasicInfo log tradeLog with
                | .error err =>
                  .ret result (some (.wrap err "could not update trade log basic info"))
                | .ok tradeLog =>
                  match tradeLog.GasPrice with
                  | none => .panic
                  | some gasPrice =>
                    let tradeLog :=
                      { tradeLog with
                        TransactionFee := some (gasPrice * int64OfUint64 tradeLog.GasUsed) }
                    assembleLoop crawler rest (result ++ [tradeLog]) TradeLog.zero
        else if topic = addReserveToStorageEvent then
          match fillAddReserveToStorage crawler log with
          | some err => .ret result (some err)
          | none => assembleLoop crawler rest result tradeLog
        else if topic = reserveRebateWalletSetEvent then
          match fillRebateWalletSet log with
          | some err => .ret result (some err)
          | none => assembleLoop crawler rest result tradeLog
        else .ret [] (some crawler.errUnknownLogTopic)

/-- `Crawler.assembleTradeLogsV4`: `result` starts nil and `tradeLog` starts as the
zero value. -/
def assembleTradeLogsV4 (crawler : Crawler Fee Reserve Rest) (eventLogs : List Log) :
    Outcome Rest :=
  assembleLoop crawler eventLogs [] TradeLog.zero

/-- What one iteration of the loop of `assembleTradeLogsV4` does with a log when the
local `tradeLog` holds the zero value: go on unchanged (`skip`), append a record and
go on (`emit`), `return nil, err` (`failNil`), `return result, err` (`failKeep`), or
panic. -/
inductive Step (Rest : Type) where
  | skip
  | emit (record : TradeLog Rest)
  | failNil (err : Err)
  | failKeep (err : Err)
  | panic
deriving DecidableEq, Repr

/-- The body of the loop of `assembleTradeLogsV4` for one log, with `tradeLog` the zero
value (see `assembleLoop_cons`). -/
def processLog (crawler : Crawler Fee Reserve Rest) (log : Log) : Step Rest :=
  if log.Removed then .skip
  else
    match log.Topics with
    | [] => .failKeep (.msg "log item has no topic")
    | topic :: _ =>
      if topic = feeDistributedEvent then
        match fillFeeDistributed crawler log with
        | some err => .failNil err
        | none => .skip
      else if topic = crawler.kyberTradeEvent then
        match crawler.fillKyberTradeV4 TradeLog.zero log with
        | .error err => .failNil err
        | .ok tradeLog =>
          match crawler.getTransactionReceipt tradeLog.TransactionHash with
          | .error err => .failNil (.wrap err "failed to get transaction receipt tx: %v")
          | .ok receipt =>
            match crawler.Resolve log.BlockNumber with
            | .error err =>
              .failNil (.wrap err "failed to resolve timestamp by block_number %v")
            | .ok ts =>
              match crawler.updateBasicInfo log
                  { tradeLog with GasUsed := receipt.GasUsed, Timestamp := ts } with
              | .error err => .failKeep (.wrap err "could not update trade log basic info")
              | .ok tradeLog =>
                match tradeLog.GasPrice with
                | none => .panic
                | some gasPrice =>
                  .emit { tradeLog with
                          TransactionFee := some (gasPrice * int64OfUint64 tradeLog.GasUsed) }
      else if topic = addReserveToStorageEvent then
        match fillAddReserveToStorage crawler log with
        | some err => .failKeep err
        | none => .skip
      else if topic = reserveRebateWalletSetEvent then
        match fillRebateWalletSet log with
        | some err => .failKeep err
        | none => .skip
      else .failNil crawler.errUnknownLogTopic

/-- The non-removed trade events of a window: the logs whose first topic is
`kyberTradeEvent`, in input order. -/
def tradeEvents (crawler : Crawler Fee Reserve Rest) (eventLogs : List Log) : List Log :=
  eventLogs.filter fun log => !log.Removed && log.Topics.head? == some crawler.kyberTradeEvent

/-- A log the loop gets past: it is skipped or decoded without error, or it is a
trade event whose decoding and enrichment all succeed. -/
def logSucceeds (crawler : Crawler Fee Reserve Rest) (log : Log) : Bool :=
  match processLog crawler log with
  | .skip => true
  | .emit _ => true
  | _ => false

/-- The same crawler with the `Status` of every fetched receipt replaced. -/
def Crawler.withReceiptStatus (crawler : Crawler Fee Reserve Rest) (status : String → Nat) :
    Crawler Fee Reserve Rest :=
  { crawler with
    getTransactionReceipt := fun txHash =>
      match crawler.getTransactionReceipt txHash with
      | .error err => .error err
      | .ok receipt => .ok { receipt with Status := status txHash } }

/-- The same crawler whose `fillKyberTradeV4` disregards the trade log it is handed
and starts from the zero value. -/
def Crawler.ignoringAccumulator (crawler : Crawler Fee Reserve Rest) :
    Crawler Fee Reserve Rest :=
  { crawler with
    fillKyberTradeV4 := fun _ log => crawler.fillKyberTradeV4 TradeLog.zero log }

end Assembler

/-! ### A concrete crawler and concrete logs, used to evaluate the code -/

/-- A sample value for the topic constant `kyberTradeEvent`. -/
def sampleKyberTradeEvent : String :=
  "0x30bbea603a7b36858fe5e3ec6ba5ff59dde039d02120d758eacfaed01520577d"

/-- A crawler whose decoders reject an empty payload, whose receipt fetcher knows a
missing, a reverted (status 0) and an oversized transaction, whose resolver rejects
block 0 and whose `updateBasicInfo` rejects log index 999 and sets the gas price. -/
def sampleCrawler : Crawler (List Nat) (List Nat) Unit where
  kyberTradeEvent := sampleKyberTradeEvent
  errUnknownLogTopic := .msg "unknown log topic"
  ParseFeeDistributed := fun log =>
    if log.Data = [] then .error (.msg "abi: cannot unmarshal") else .ok log.Data
  ParseAddReserveToStorage := fun log =>
    if log.Data = [] then .error (.msg "abi: cannot unmarshal") else .ok log.Data
  fillKyberTradeV4 := fun tradeLog log =>
    if log.Data = [] then .error (.msg "abi: cannot unmarshal")
    else .ok { tradeLog with TransactionHash := log.TxHash }
  getTransactionReceipt := fun txHash =>
    if txHash = "0xmissing" then .error (.msg "not found")
    else if txHash = "0xreverted" then .ok { Status := 0, GasUsed := 21000 }
    else if txHash = "0xhuge" then .ok { Status := 1, GasUsed := 2 ^ 63 }
    else .ok { Status := 1, GasUsed := 21000 }
  Resolve := fun blockNumber =>
    if blockNumber = 0 then .error (.msg "block not found") else .ok (1600000000 + blockNumber)
  updateBasicInfo := fun log tradeLog =>
    if log.Index = 999 then .error (.msg "transaction not found")
    else .ok { tradeLog with GasPrice := some 50000000000 }

/-- A `FeeDistributed` log. -/
def sampleFeeLog : Log :=
  { Topics := [feeDistributedEvent], Data := [10], BlockNumber := 7, TxHash := "0xa1",
    Index := 0, Removed := false }

/-- A `KyberTrade` log. -/
def sampleTradeLog : Log :=
  { Topics := [sampleKyberTradeEvent], Data := [100], BlockNumber := 7, TxHash := "0xa2",
    Index := 1, Removed := false }

/-- An `AddReserveToStorage` log. -/
def sampleReserveLog : Log :=
  { Topics := [addReserveToStorageEvent], Data := [1], BlockNumber := 7, TxHash := "0xa3",
    Index := 2, Removed := false }

/-- An `AddReserveToStorage` log whose payload does not decode. -/
def sampleBadReserveLog : Log :=
  { Topics := [addReserveToStorageEvent], Data := [], BlockNumber := 7, TxHash := "0xa3",
    Index := 2, Removed := false }

/-- A log without topics. -/
def sampleNoTopicLog : Log :=
  { Topics := [], Data := [], BlockNumber := 7, TxHash := "0xa4", Index := 3, Removed := false }

/-- A log with a topic the assembler does not know. -/
def sampleUnknownLog : Log :=
  { Topics := ["0x00"], Data := [], BlockNumber := 7, TxHash := "0xa5", Index := 4,
    Removed := false }

/-- A `KyberTrade` log for which `updateBasicInfo` fails. -/
def sampleTradeLogNoInfo : Log :=
  { Topics := [sampleKyberTradeEvent], Data := [100], BlockNumber := 7, TxHash := "0xa6",
    Index := 999, Removed := false }

/-- A `KyberTrade` log whose transaction has no receipt. -/
def sampleTradeLogNoReceipt : Log :=
  { Topics := [sampleKyberTradeEvent], Data := [100], BlockNumber := 7, TxHash := "0xmissing",
    Index := 5, Removed := false }

/-- A `KyberTrade` log whose transaction receipt has status 0. -/
def sampleTradeLogReverted : Log :=
  { Topics := [sampleKyberTradeEvent], Data := [100], BlockNumber := 7,
    TxHash := "0xreverted", Index := 6, Removed := false }

/-- A `KyberTrade` log whose receipt reports `GasUsed = 2 ^ 63`. -/
def sampleTradeLogHuge : Log :=
  { Topics := [sampleKyberTradeEvent], Data := [100], BlockNumber := 7, TxHash := "0xhuge",
    Index := 8, Removed := false }

/-- A second `KyberTrade` log, two blocks later. -/
def sampleTradeLogLater : Log :=
  { Topics := [sampleKyberTradeEvent], Data := [250], BlockNumber := 9, TxHash := "0xb7",
    Index := 0, Removed := false }

/-- The record the sample crawler builds for a trade log of block 7 with the given
transaction hash and gas. -/
def sampleRecord (txHash : String) (gasUsed : Nat) (fee : Int) : TradeLog Unit :=
  { TransactionHash := txHash, Timestamp := 1600000007, GasUsed := gasUsed,
    GasPrice := some 50000000000, TransactionFee := some fee, Rest := () }

/-- A window with a fee event, a trade, a removed trade, an add-reserve event and a
later trade. -/
def sampleWindow : List Log :=
  [sampleFeeLog, sampleTradeLog, { sampleTradeLog with Removed := true }, sampleReserveLog,
    sampleTradeLogLater]

/-- The sample crawler with an `updateBasicInfo` that, besides the gas price, writes
its own `Timestamp` (0) and `GasUsed` (1) into the trade log it returns. -/
def overwritingCrawler : Crawler (List Nat) (List Nat) Unit :=
  { sampleCrawler with
    updateBasicInfo := fun _ tradeLog =>
      .ok { tradeLog with GasPrice := some 50000000000, Timestamp := 0, GasUsed := 1 } }

/-- The records of the two trades of `sampleWindow`. -/
def sampleWindowRecords : List (TradeLog Unit) :=
  [sampleRecord "0xa2" 21000 1050000000000000,
    { sampleRecord "0xb7" 21000 1050000000000000 with Timestamp := 1600000009 }]

end Tradelogs

namespace Blockchain

/-! ### `IsBurnable` -/

section Burnable

variable {Address : Type} [DecidableEq Address]

/-- Package variable `notBurnTokens`; the three addresses are declared outside
`utils.go` and are parameters. -/
def notBurnTokens (ETHAddr WETHAddr KCCAddr : Address) : List Address :=
  [ETHAddr, WETHAddr, KCCAddr]

/-- The loop `for _, token := range notBurnTokens` of `IsBurnable` with its final
`return true`. -/
def isBurnableLoop : List Address → Address → Bool
  | [], _ => true
  | token :: rest, t => if token = t then false else isBurnableLoop rest t

/-- `IsBurnable`. -/
def IsBurnable (ETHAddr WETHAddr KCCAddr : Address) (t : Address) : Bool :=
  isBurnableLoop (notBurnTokens ETHAddr WETHAddr KCCAddr) t

end Burnable

/-! ### `float64` arithmetic and `floatToBigInt`

A `float64` is kept as sign, integer significand and binary exponent, so that every
operation is exact integer arithmetic followed by one rounding to nearest, ties to
even, as Go prescribes for `float64` operations. -/

/-- A `float64` value: `fin neg m e` is `(-1)^neg * m * 2^e`, besides the infinities and
NaN. The values of the type are those with `m < 2 ^ 53` and `-1074 ≤ e ≤ 971`. -/
inductive Float64 where
  | fin (neg : Bool) (m : Nat) (e : Int)
  | inf (neg : Bool)
  | nan
deriving DecidableEq, Repr

/-- The rational number a finite `float64` stands for (0 for the others). -/
def Float64.toRat : Float64 → ℚ
  | .fin neg m e => (if neg then -1 else 1) * (m : ℚ) * (2 : ℚ) ^ e
  | _ => 0

/-- Whether the triple is a value of the `float64` format. -/
def Float64.isFloat64 : Float64 → Bool
  | .fin _ m e => decide (m < 2 ^ 53) && decide (-1074 ≤ e) && decide (e ≤ 971)
  | _ => true

/-- Binary logarithm by halving, at most `fuel` times. -/
def log2Fuel : Nat → Nat → Nat
  | 0, _ => 0
  | fuel + 1, n => if n < 2 then 0 else log2Fuel fuel (n / 2) + 1

/-- The position of the leading bit of `n`, that is `⌊log₂ n⌋` (0 for 0). -/
def ilog2 (n : Nat) : Nat := log2Fuel n n

/-- The integer `⌊log₂ (num / den)⌋` for positive `num` and `den`. -/
def floorLog2 (num den : Nat) : Int :=
  if den ≤ num then (ilog2 (num / den) : Int)
  else -((ilog2 ((den - 1) / num) : Int) + 1)

/-- The `float64` nearest to `±num / den` (ties to even): the exponent of the unit in
the last place is `⌊log₂⌋ - 52`, not below `-1074` (subnormals); results from
`2 ^ 1024` on are infinite. -/
def roundNearestEven (neg : Bool) (num den : Nat) : Float64 :=
  if num = 0 then .fin neg 0 0
  else
    let e : Int := max (floorLog2 num den - 52) (-1074)
    let n : Nat := num * 2 ^ (-e).toNat
    let d : Nat := den * 2 ^ e.toNat
    let q : Nat := n / d
    let r : Nat := n % d
    let m : Nat :=
      if 2 * r < d then q else if d < 2 * r then q + 1 else if q % 2 = 0 then q else q + 1
    if 971 < e ∨ (e = 971 ∧ 2 ^ 53 ≤ m) then .inf neg else .fin neg m e

/-- Go's `x * y` on `float64`. -/
def Float64.mul : Float64 → Float64 → Float64
  | .fin s m e, .fin t n f =>
    roundNearestEven (xor s t) (m * n * 2 ^ (e + f).toNat) (2 ^ (-(e + f)).toNat)
  | .fin s m _, .inf t => if m = 0 then .nan else .inf (xor s t)
  | .inf s, .fin t n _ => if n = 0 then .nan else .inf (xor s t)
  | .inf s, .inf t => .inf (xor s t)
  | _, _ => .nan

/-- Go's `x / y` on `float64`. -/
def Float64.div : Float64 → Float64 → Float64
  | .fin s m e, .fin t n f =>
    if n = 0 then (if m = 0 then .nan else .inf (xor s t))
    else roundNearestEven (xor s t) (m * 2 ^ (e - f).toNat) (n * 2 ^ (f - e).toNat)
  | .fin s _ _, .inf t => .fin (xor s t) 0 0
  | .inf s, .fin t _ _ => .inf (xor s t)
  | _, _ => .nan

/-- Go's conversion `int64(x)` of a `float64`: the fraction is discarded; when the
value is not representable in `int64` (out of range, infinite, NaN) the language leaves
the result to the implementation, which is `none` here. -/
def Float64.toInt64 : Float64 → Option Int
  | .fin s m e =>
    let t : Nat := m * 2 ^ e.toNat / 2 ^ (-e).toNat
    let v : Int := if s then -(t : Int) else (t : Int)
    if -(2 : Int) ^ 63 ≤ v ∧ v < (2 : Int) ^ 63 then some v else none
  | _ => none

/-- A non-negative decimal constant `num / den` of type `float64`. -/
def Float64.ofRatio (num den : Nat) : Float64 := roundNearestEven false num den

/-- The standard library's `math.Pow10`: for `0 ≤ n ≤ 308` the product of the table
entries `1e(32*(n/32))` and `1e(n%32)`, for `-323 ≤ n ≤ 0` the quotient of the table
entries `1e-(32*(-n/32))` and `1e(-n%32)`, `+Inf` above and `0` below. (Up to
`n = 22` the result is `10 ^ n` exactly.) -/
def Pow10 (n : Int) : Float64 :=
  if 0 ≤ n ∧ n ≤ 308 then
    (Float64.ofRatio (10 ^ (32 * (n.toNat / 32))) 1).mul (Float64.ofRatio (10 ^ (n.toNat % 32)) 1)
  else if -323 ≤ n ∧ n ≤ 0 then
    (Float64.ofRatio 1 (10 ^ (32 * ((-n).toNat / 32)))).div
      (Float64.ofRatio (10 ^ ((-n).toNat % 32)) 1)
  else if 0 < n then .inf false
  else .fin false 0 0

/-- `floatToBigInt` (`decimal` is an `int64`; `int` has 64 bits). `none` stands for a
result that depends on the implementation, see `Float64.toInt64`. -/
def floatToBigInt (amount : Float64) (decimal : Int) : Option Int :=
  if decimal < 6 then
    (amount.mul (Pow10 decimal)).toInt64
  else
    match (amount.mul (Pow10 6)).toInt64 with
    | none => none
    | some result => some (result * 10 ^ (decimal - 6).toNat)

/-- `EthToWei`: the body is `return floatToBigInt(n, 18)`. -/
def EthToWei (n : Float64) : Option Int := floatToBigInt n 18

end Blockchain

namespace HuobiImport

/-! ### `importTradeHistory`

The history file enters as the outcome of `os.Open` and of splitting its text into CSV
records; `strconv.ParseInt`, `strconv.ParseUint` and the storage call
`hdb.UpdateTradeHistory` are fields of `Env`. An index out of range is a panic.
Logging is not represented. -/

/-- Go `error` values, as in the assembler. -/
abbrev Err := Tradelogs.Err

/-- The fields of `huobi.TradeHistory` that the composite literal of
`importTradeHistory` sets (`Type_` is the field `Type`). -/
structure TradeHistory where
  ID : Int
  Symbol : String
  Source : String
  FinishedAt : Nat
  Type_ : String
  Price : String
  State : String
  FieldFees : String
  Amount : String
deriving DecidableEq, Repr

/-- Local variable `types` of `importTradeHistory`. -/
def types : List String := ["", "buy-market", "sell-market", "buy-limit", "sell-limit"]

/-- Local variable `states` of `importTradeHistory`. -/
def states : List String :=
  ["", "pre-submitted", "submitting", "submitted", "partial-filled", "partial-canceled",
    "filled", "canceled", ""]

/-- The library and storage calls of `importTradeHistory`: `strconv.ParseInt(s, 10, 64)`,
`strconv.ParseUint(s, 10, 64)` and `hdb.UpdateTradeHistory`. -/
structure Env where
  ParseInt : String → Except Err Int
  ParseUint : String → Except Err Nat
  UpdateTradeHistory : List TradeHistory → Option Err

/-- Go indexing `xs[i]` of a slice of strings by an `int64`: `none` is the run-time
panic for an index out of range. -/
def indexInt64 (xs : List String) (i : Int) : Option String :=
  if 0 ≤ i then xs[i.toNat]? else none

/-- The error `csv.ErrFieldCount`. -/
def ErrFieldCount : Err := .msg "wrong number of fields"

/-- The field-count rule of `(*csv.Reader).ReadAll` for a reader made by
`csv.NewReader`, whose `FieldsPerRecord` is 0: the number of fields of the first record
becomes the required number, and a later record with another number of fields makes
`ReadAll` return `ErrFieldCount` and no records. -/
def ReadAll (records : List (List String)) : Except Err (List (List String)) :=
  match records with
  | [] => .ok []
  | first :: rest =>
    if rest.all (fun record => decide (record.length = first.length)) then .ok records
    else .error ErrFieldCount

/-- What one iteration of the loop does with a line other than the first: it panics,
returns an error, or goes on with a new `orderAmount` and one more record. -/
inductive RowOutcome where
  | panic
  | fail (err : Err)
  | next (orderAmount : String) (tradeHistory : TradeHistory)
deriving DecidableEq, Repr

/-- The body of the loop `for id, line := range lines` for `id ≠ 0` (lines 78 to 115),
given the current value of the variable `orderAmount`, which is declared before the
loop; `row` is the variable `line`. -/
def importRow (env : Env) (row : List String) (orderAmount : String) : RowOutcome :=
  match row[0]? with
  | none => .panic
  | some field0 =>
    match env.ParseInt field0 with
    | .error err => .fail err
    | .ok orderID =>
      match row[9]? with
      | none => .panic
      | some field9 =>
        match env.ParseUint field9 with
        | .error err => .fail err
        | .ok updatedAt =>
          match row[2]? with
          | none => .panic
          | some field2 =>
            match env.ParseInt field2 with
            | .error err => .fail err
            | .ok orderType =>
              match row[5]? with
              | none => .panic
              | some field5 =>
                match env.ParseInt field5 with
                | .error err => .fail err
                | .ok orderState =>
                  let orderAmount :=
                    if 10 < row.length then row.getD 10 "" else orderAmount
                  match row[1]?, indexInt64 types orderType, row[6]?,
                    indexInt64 states orderState, row[8]? with
                  | some symbol, some orderTypeName, some price, some state, some fieldFees =>
                    .next orderAmount
                      { ID := orderID, Symbol := symbol, Source := "api",
                        FinishedAt := updatedAt, Type_ := orderTypeName, Price := price,
                        State := state, FieldFees := fieldFees, Amount := orderAmount }
                  | _, _, _, _, _ => .panic

/-- What the loop of `importTradeHistory` does: it panics, makes the function return an
error, or ends with the records gathered. -/
inductive LoopOutcome where
  | panic
  | fail (err : Err)
  | done (tradeHistories : List TradeHistory)
deriving DecidableEq, Repr

/-- The loop `for id, line := range lines` from index `id` on, with the current values
of `tradeHistories` and `orderAmount`. -/
def importLoop (env : Env) :
    Nat → List (List String) → List TradeHistory → String → LoopOutcome
  | _, [], tradeHistories, _ => .done tradeHistories
  | id, line :: rest, tradeHistories, orderAmount =>
    if id = 0 then importLoop env (id + 1) rest tradeHistories orderAmount
    else
      match importRow env line orderAmount with
      | .panic => .panic
      | .fail err => .fail err
      | .next orderAmount tradeHistory =>
        importLoop env (id + 1) rest (tradeHistories ++ [tradeHistory]) orderAmount

/-- What a call of `importTradeHistory` does: it panics, returns an error before it
reaches the storage (`early`), or hands `tradeHistories` to `hdb.UpdateTradeHistory`
and returns what that call returns. -/
inductive ImportOutcome where
  | panic
  | early (err : Err)
  | updated (tradeHistories : List TradeHistory) (err : Option Err)
deriving DecidableEq, Repr

/-- `importTradeHistory`. The argument `file` is the outcome of `os.Open` followed by
the splitting of the text into records: an error if the file cannot be opened or its
text is not CSV, the records in file order otherwise. -/
def importTradeHistory (env : Env) (file : Except Err (List (List String))) :
    ImportOutcome :=
  match file with
  | .error err => .early err
  | .ok records =>
    match ReadAll records with
    | .error err => .early err
    | .ok lines =>
      match importLoop env 0 lines [] "" with
      | .panic => .panic
      | .fail err => .early err
      | .done tradeHistories =>
        .updated tradeHistories (env.UpdateTradeHistory tradeHistories)

/-! ### A concrete environment and concrete files -/

/-- An environment that parses the numerals 0 to 6 and 1600000000, and whose storage
accepts everything. -/
def sampleEnv : Env where
  ParseInt := fun s =>
    if s = "0" then .ok 0 else if s = "1" then .ok 1 else if s = "2" then .ok 2
    else if s = "3" then .ok 3 else if s = "4" then .ok 4 else if s = "5" then .ok 5
    else if s = "6" then .ok 6 else .error (.msg "invalid syntax")
  ParseUint := fun s =>
    if s = "1600000000" then .ok 1600000000 else .error (.msg "invalid syntax")
  UpdateTradeHistory := fun _ => none

/-- A header line with eleven fields. -/
def sampleHeader : List String :=
  ["id", "symbol", "type", "c3", "c4", "state", "price", "c7", "fees", "updated", "amount"]

/-- A data line with eleven fields, the last being the amount. -/
def sampleLine (id amount : String) : List String :=
  [id, "ethusdt", "1", "", "", "6", "210.5", "", "0.002", "1600000000", amount]

/-- A data line with ten fields: there is no amount column. -/
def sampleShortLine (id : String) : List String :=
  [id, "ethusdt", "1", "", "", "6", "210.5", "", "0.002", "1600000000"]

/-- The record built from `sampleLine` or `sampleShortLine`. -/
def sampleTradeHistory (id : Int) (amount : String) : TradeHistory :=
  { ID := id, Symbol := "ethusdt", Source := "api", FinishedAt := 1600000000,
    Type_ := "buy-market", Price := "210.5", State := "filled", FieldFees := "0.002",
    Amount := amount }

end HuobiImport

namespace Tradelogs

/-! ## Properties of the assembler -/

section AssemblerProperties

variable {Fee Reserve Rest : Type} [Inhabited Rest]

/-- One iteration of the loop, expressed with `processLog`. -/
theorem assembleLoop_cons (crawler : Crawler Fee Reserve Rest) (log : Log) (rest : List Log)
    (result : List (TradeLog Rest)) :
    assembleLoop crawler (log :: rest) result TradeLog.zero =
      match processLog crawler log with
      | .skip => assembleLoop crawler rest result TradeLog.zero
      | .emit record => assembleLoop crawler rest (result ++ [record]) TradeLog.zero
      | .failNil err => .ret [] (some err)
      | .failKeep err => .ret result (some err)
      | .panic => .panic := by
  rw [assembleLoop]
  unfold processLog
  by_cases hr : log.Removed = true
  · simp [hr]
  · simp only [hr, if_false]
    cases ht : log.Topics with
    | nil => simp
    | cons topic ts =>
      simp only []
      by_cases h1 : topic = feeDistributedEvent
      · simp only [h1, if_true]
        cases fillFeeDistributed crawler log <;> simp
      · simp only [h1, if_false]
        by_cases h2 : topic = crawler.kyberTradeEvent
        · simp only [h2, if_true]
          cases crawler.fillKyberTradeV4 TradeLog.zero log with
          | error e => simp
          | ok tl =>
            simp only []
            cases crawler.getTransactionReceipt tl.TransactionHash with
            | error e => simp
            | ok rc =>
              simp only []
              cases crawler.Resolve log.BlockNumber with
              | error e => simp
              | ok ts =>
                simp only []
                cases crawler.updateBasicInfo log
                    { tl with GasUsed := rc.GasUsed, Timestamp := ts } with
                | error e => simp
                | ok tl2 =>
                  simp only []
                  cases tl2.GasPrice <;> simp
        · simp only [h2, if_false]
          by_cases h3 : topic = addReserveToStorageEvent
          · simp only [h3, if_true]
            cases fillAddReserveToStorage crawler log <;> simp
          · simp only [h3, if_false]
            by_cases h4 : topic = reserveRebateWalletSetEvent
            · simp only [h4, if_true]
              cases fillRebateWalletSet log <;> simp
            · simp [h4]


theorem assembleLoop_nil (crawler : Crawler Fee Reserve Rest) (result : List (TradeLog Rest))
    (tradeLog : TradeLog Rest) :
    assembleLoop crawler [] result tradeLog = .ret result none := by
  rw [assembleLoop]

/-- Replacing the tail of a window by one on which the loop behaves alike does not
change the outcome. -/
theorem assembleLoop_append_congr (crawler : Crawler Fee Reserve Rest)
    (pre rest rest' : List Log)
    (h : ∀ result, assembleLoop crawler rest result TradeLog.zero =
      assembleLoop crawler rest' result TradeLog.zero) :
    ∀ result, assembleLoop crawler (pre ++ rest) result TradeLog.zero =
      assembleLoop crawler (pre ++ rest') result TradeLog.zero := by
  induction pre with
  | nil => simpa using h
  | cons log pre ih =>
    intro result
    simp only [List.cons_append, assembleLoop_cons]
    cases processLog crawler log <;> simp [ih]

/-- When the loop gets through a prefix without returning, it goes on with the rest
from the records gathered so far. -/
theorem assembleLoop_append_ok (crawler : Crawler Fee Reserve Rest) (pre rest : List Log) :
    ∀ result result', assembleLoop crawler pre result TradeLog.zero = .ret result' none →
      assembleLoop crawler (pre ++ rest) result TradeLog.zero =
        assembleLoop crawler rest result' TradeLog.zero := by
  induction pre with
  | nil =>
    intro result result' h
    rw [assembleLoop_nil] at h
    simp only [Outcome.ret.injEq, and_true] at h
    simp [h]
  | cons log pre ih =>
    intro result result' h
    rw [assembleLoop_cons] at h
    simp only [List.cons_append, assembleLoop_cons]
    cases hp : processLog crawler log with
    | skip => rw [hp] at h; exact ih _ _ h
    | emit record => rw [hp] at h; exact ih _ _ h
    | failNil err => rw [hp] at h; simp at h
    | failKeep err => rw [hp] at h; simp at h
    | panic => rw [hp] at h; simp at h

theorem processLog_removed (crawler : Crawler Fee Reserve Rest) (log : Log)
    (h : log.Removed = true) : processLog crawler log = .skip := by
  simp [processLog, h]

/-- The steps behind an emitted record. -/
theorem processLog_emit (crawler : Crawler Fee Reserve Rest) (log : Log)
    (record : TradeLog Rest) (h : processLog crawler log = .emit record) :
    log.Removed = false ∧ log.Topics.head? = some crawler.kyberTradeEvent ∧
    ∃ tl rc ts tl' gasPrice,
      crawler.fillKyberTradeV4 TradeLog.zero log = .ok tl ∧
      crawler.getTransactionReceipt tl.TransactionHash = .ok rc ∧
      crawler.Resolve log.BlockNumber = .ok ts ∧
      crawler.updateBasicInfo log { tl with GasUsed := rc.GasUsed, Timestamp := ts } = .ok tl' ∧
      tl'.GasPrice = some gasPrice ∧
      record = { tl' with TransactionFee := some (gasPrice * int64OfUint64 tl'.GasUsed) } := by
  unfold processLog at h
  by_cases hr : log.Removed = true
  · simp [hr] at h
  · have hr' : log.Removed = false := by simpa using hr
    simp only [hr', Bool.false_eq_true, if_false] at h
    cases ht : log.Topics with
    | nil => simp [ht] at h
    | cons topic ts =>
      simp only [ht] at h
      by_cases h1 : topic = feeDistributedEvent
      · simp only [h1, if_true] at h
        cases hf : fillFeeDistributed crawler log <;> simp [hf] at h
      · simp only [h1, if_false] at h
        by_cases h2 : topic = crawler.kyberTradeEvent
        · simp only [h2, if_true] at h
          refine ⟨hr', by simp [h2], ?_⟩
          cases hA : crawler.fillKyberTradeV4 TradeLog.zero log with
          | error e => simp [hA] at h
          | ok tl =>
            simp only [hA] at h
            cases hB : crawler.getTransactionReceipt tl.TransactionHash with
            | error e => simp [hB] at h
            | ok rc =>
              simp only [hB] at h
              cases hC : crawler.Resolve log.BlockNumber with
              | error e => simp [hC] at h
              | ok t =>
                simp only [hC] at h
                cases hD : crawler.updateBasicInfo log
                    { tl with GasUsed := rc.GasUsed, Timestamp := t } with
                | error e => simp [hD] at h
                | ok tl2 =>
                  simp only [hD] at h
                  cases hE : tl2.GasPrice with
                  | none => simp [hE] at h
                  | some gp =>
                    simp only [hE, Step.emit.injEq] at h
                    refine ⟨tl, rc, t, tl2, gp, ?_, ?_, ?_, ?_, hE, ?_⟩
                    · rfl
                    · exact hB
                    · rfl
                    · exact hD
                    · rw [hE]; exact h.symm
        · simp only [h2, if_false] at h
          by_cases h3 : topic = addReserveToStorageEvent
          · simp only [h3, if_true] at h
            cases hf : fillAddReserveToStorage crawler log <;> simp [hf] at h
          · simp only [h3, if_false] at h
            by_cases h4 : topic = reserveRebateWalletSetEvent
            · simp only [h4, if_true] at h
              cases hf : fillRebateWalletSet log <;> simp [hf] at h
            · simp [h4] at h

/-- A log that is passed over is not a trade event (the topic constants are distinct). -/
theorem processLog_skip (crawler : Crawler Fee Reserve Rest) (log : Log)
    (hne : crawler.kyberTradeEvent ≠ feeDistributedEvent)
    (h : processLog crawler log = .skip) :
    log.Removed = true ∨ log.Topics.head? ≠ some crawler.kyberTradeEvent := by
  unfold processLog at h
  by_cases hr : log.Removed = true
  · exact Or.inl hr
  · right
    have hr' : log.Removed = false := by simpa using hr
    simp only [hr', Bool.false_eq_true, if_false] at h
    cases ht : log.Topics with
    | nil => simp
    | cons topic ts =>
      simp only [ht] at h
      simp only [List.head?_cons, ne_eq, Option.some.injEq]
      intro h2
      subst h2
      simp only [hne, if_false, if_true] at h
      cases hA : crawler.fillKyberTradeV4 TradeLog.zero log with
      | error e => simp [hA] at h
      | ok tl =>
        simp only [hA] at h
        cases hB : crawler.getTransactionReceipt tl.TransactionHash with
        | error e => simp [hB] at h
        | ok rc =>
          simp only [hB] at h
          cases hC : crawler.Resolve log.BlockNumber with
          | error e => simp [hC] at h
          | ok t =>
            simp only [hC] at h
            cases hD : crawler.updateBasicInfo log
                { tl with GasUsed := rc.GasUsed, Timestamp := t } with
            | error e => simp [hD] at h
            | ok tl2 =>
              simp only [hD] at h
              cases hE : tl2.GasPrice <;> simp [hE] at h

/-- The loop gets past a prefix of logs that all succeed. -/
theorem assembleLoop_append_succeeds (crawler : Crawler Fee Reserve Rest) (pre rest : List Log)
    (h : ∀ log ∈ pre, logSucceeds crawler log = true) :
    ∀ result, ∃ result', assembleLoop crawler (pre ++ rest) result TradeLog.zero =
      assembleLoop crawler rest result' TradeLog.zero := by
  induction pre with
  | nil => intro result; exact ⟨result, rfl⟩
  | cons log pre ih =>
    intro result
    have hl := h log (List.mem_cons_self _ _)
    have ih' := ih (fun l hl' => h l (List.mem_cons_of_mem _ hl'))
    simp only [List.cons_append, assembleLoop_cons]
    unfold logSucceeds at hl
    cases hp : processLog crawler log with
    | skip => exact ih' _
    | emit record => exact ih' _
    | failNil err => simp [hp] at hl
    | failKeep err => simp [hp] at hl
    | panic => simp [hp] at hl

/-- Removed logs can be deleted from the input of the loop. -/
theorem assembleLoop_filter_removed (crawler : Crawler Fee Reserve Rest) (eventLogs : List Log) :
    ∀ result, assembleLoop crawler (eventLogs.filter fun log => !log.Removed) result
        TradeLog.zero = assembleLoop crawler eventLogs result TradeLog.zero := by
  induction eventLogs with
  | nil => intro result; rfl
  | cons log rest ih =>
    intro result
    by_cases hr : log.Removed = true
    · rw [assembleLoop_cons crawler log rest, processLog_removed crawler log hr]
      simp [hr, ih]
    · have hr' : log.Removed = false := by simpa using hr
      simp only [List.filter_cons, hr', Bool.not_false, if_true, assembleLoop_cons]
      cases processLog crawler log <;> simp [ih]

/-- The records added by a successful run of the loop pair off, in order, with the
trade events of the window. -/
theorem assembleLoop_records (crawler : Crawler Fee Reserve Rest)
    (hne : crawler.kyberTradeEvent ≠ feeDistributedEvent) (eventLogs : List Log) :
    ∀ result result', assembleLoop crawler eventLogs result TradeLog.zero = .ret result' none →
      ∃ records, result' = result ++ records ∧
        List.Forall₂ (fun log record => processLog crawler log = .emit record)
          (tradeEvents crawler eventLogs) records := by
  induction eventLogs with
  | nil =>
    intro result result' h
    rw [assembleLoop_nil] at h
    simp only [Outcome.ret.injEq, and_true] at h
    exact ⟨[], by simp [h], by simp [tradeEvents]⟩
  | cons log rest ih =>
    intro result result' h
    rw [assembleLoop_cons] at h
    cases hp : processLog crawler log with
    | skip =>
      rw [hp] at h
      obtain ⟨records, h1, h2⟩ := ih _ _ h
      refine ⟨records, h1, ?_⟩
      have hs := processLog_skip crawler log hne hp
      have : tradeEvents crawler (log :: rest) = tradeEvents crawler rest := by
        unfold tradeEvents
        rw [List.filter_cons_of_neg]
        rcases hs with hs | hs
        · simp [hs]
        · simp [hs]
      rw [this]; exact h2
    | emit record =>
      rw [hp] at h
      obtain ⟨records, h1, h2⟩ := ih _ _ h
      refine ⟨record :: records, by simp [h1], ?_⟩
      obtain ⟨hr, ht, -⟩ := processLog_emit crawler log record hp
      have : tradeEvents crawler (log :: rest) = log :: tradeEvents crawler rest := by
        unfold tradeEvents
        rw [List.filter_cons_of_pos]
        simp [hr, ht]
      rw [this]; exact List.Forall₂.cons hp h2
    | failNil err => rw [hp] at h; simp at h
    | failKeep err => rw [hp] at h; simp at h
    | panic => rw [hp] at h; simp at h

theorem forall₂_getElem? {α β : Type} {R : α → β → Prop} {l₁ : List α} {l₂ : List β}
    (h : List.Forall₂ R l₁ l₂) :
    ∀ (i : Nat) (a : α), l₁[i]? = some a → ∃ b, l₂[i]? = some b ∧ R a b := by
  induction h with
  | nil => intro i a h; simp at h
  | cons hab _ ih =>
    intro i a h
    cases i with
    | zero =>
      simp only [List.getElem?_cons_zero, Option.some.injEq] at h
      subst h
      exact ⟨_, by simp, hab⟩
    | succ i =>
      simp only [List.getElem?_cons_succ] at h
      simpa using ih i a h

/-- The fee of an emitted record is the product of its gas price and `int64(GasUsed)`. -/
theorem processLog_emit_fee (crawler : Crawler Fee Reserve Rest) (log : Log)
    (record : TradeLog Rest) (h : processLog crawler log = .emit record) :
    ∃ gasPrice, record.GasPrice = some gasPrice ∧
      record.TransactionFee = some (gasPrice * int64OfUint64 record.GasUsed) := by
  obtain ⟨-, -, tl, rc, ts, tl', gp, -, -, -, -, hgp, hrec⟩ := processLog_emit crawler log record h
  exact ⟨gp, by simp [hrec, hgp], by simp [hrec]⟩

theorem int64OfUint64_of_lt (x : Nat) (h : x < 2 ^ 63) : int64OfUint64 x = (x : Int) := by
  unfold int64OfUint64
  have h1 : x % 2 ^ 64 = x := Nat.mod_eq_of_lt (by omega)
  rw [h1, if_pos h]

/-! ### The claims about `assembleTradeLogsV4` -/

/-- C1, the code at three failing inputs: after one good trade event, a log without
topics, a trade event whose `updateBasicInfo` fails, and an add-reserve log that does
not decode each make `assembleTradeLogsV4` return a non-nil error together with the
record of the earlier trade (the `return result, err` statements), not with an empty
list. -/
theorem assembleTradeLogsV4_error_keeps_records :
    assembleTradeLogsV4 sampleCrawler [sampleTradeLog, sampleNoTopicLog] =
      .ret [sampleRecord "0xa2" 21000 1050000000000000]
        (some (.msg "log item has no topic")) ∧
    assembleTradeLogsV4 sampleCrawler [sampleTradeLog, sampleTradeLogNoInfo] =
      .ret [sampleRecord "0xa2" 21000 1050000000000000]
        (some (.wrap (.msg "transaction not found")
          "could not update trade log basic info")) ∧
    assembleTradeLogsV4 sampleCrawler [sampleTradeLog, sampleBadReserveLog] =
      .ret [sampleRecord "0xa2" 21000 1050000000000000]
        (some (.msg "abi: cannot unmarshal")) := by
  refine ⟨?_, ?_, ?_⟩ <;> decide

/-- C2: when a non-removed log has a first topic that is none of the four known event
topics and every log before it succeeds, `assembleTradeLogsV4` returns
`errUnknownLogTopic` with no records, whatever comes before or after that log (the
logs after it may be anything, valid ones included). -/
theorem assembleTradeLogsV4_unknown_topic (crawler : Crawler Fee Reserve Rest)
    (pre post : List Log) (log : Log) (topic : String) (topics : List String)
    (hpre : ∀ l ∈ pre, logSucceeds crawler l = true)
    (hrem : log.Removed = false) (htopics : log.Topics = topic :: topics)
    (h1 : topic ≠ feeDistributedEvent) (h2 : topic ≠ crawler.kyberTradeEvent)
    (h3 : topic ≠ addReserveToStorageEvent) (h4 : topic ≠ reserveRebateWalletSetEvent) :
    assembleTradeLogsV4 crawler (pre ++ log :: post) =
      .ret [] (some crawler.errUnknownLogTopic) := by
  obtain ⟨result', h⟩ := assembleLoop_append_succeeds crawler pre (log :: post) hpre []
  unfold assembleTradeLogsV4
  rw [h, assembleLoop_cons]
  have hp : processLog crawler log = .failNil crawler.errUnknownLogTopic := by
    simp [processLog, hrem, htopics, h1, h2, h3, h4]
  rw [hp]

/-- Witness of C2: two valid logs before and one after a log with topic `0x00`. -/
theorem assembleTradeLogsV4_unknown_topic_witness :
    (∀ l ∈ [sampleTradeLog, sampleFeeLog], logSucceeds sampleCrawler l = true) ∧
    sampleUnknownLog.Removed = false ∧ sampleUnknownLog.Topics = ["0x00"] ∧
    assembleTradeLogsV4 sampleCrawler
        ([sampleTradeLog, sampleFeeLog] ++ sampleUnknownLog :: [sampleTradeLog]) =
      .ret [] (some sampleCrawler.errUnknownLogTopic) :=
  ⟨by decide, rfl, rfl,
    assembleTradeLogsV4_unknown_topic sampleCrawler [sampleTradeLog, sampleFeeLog]
      [sampleTradeLog] sampleUnknownLog "0x00" [] (by decide) (by decide) (by decide)
      (by decide) (by decide) (by decide) (by decide)⟩

/-- C3: `assembleTradeLogsV4` returns the same outcome (records and error) on a window
and on that window with every removed log deleted; a removed log is passed over before
its topics are looked at, whatever they are. -/
theorem assembleTradeLogsV4_removed (crawler : Crawler Fee Reserve Rest)
    (eventLogs : List Log) :
    assembleTradeLogsV4 crawler eventLogs =
      assembleTradeLogsV4 crawler (eventLogs.filter fun log => !log.Removed) := by
  unfold assembleTradeLogsV4
  exact (assembleLoop_filter_removed crawler eventLogs []).symm

/-- C4 refuted: `assembleTradeLogsV4` appends the trade log that `updateBasicInfo`
returns (line 136 replaces `tradeLog`), so with an `updateBasicInfo` that writes
`Timestamp` and `GasUsed` itself the returned record has neither the timestamp the
resolver gave for the block of the log (1600000007, the record has 0) nor the
`GasUsed` of the fetched receipt (21000, the record has 1). -/
theorem assembleTradeLogsV4_records_counterexample :
    overwritingCrawler.Resolve sampleTradeLog.BlockNumber = .ok 1600000007 ∧
    overwritingCrawler.getTransactionReceipt "0xa2" = .ok { Status := 1, GasUsed := 21000 } ∧
    assembleTradeLogsV4 overwritingCrawler [sampleTradeLog] =
      .ret [{ TransactionHash := "0xa2", Timestamp := 0, GasUsed := 1,
              GasPrice := some 50000000000, TransactionFee := some 50000000000,
              Rest := () }] none ∧
    (0 : Nat) ≠ 1600000007 ∧ (1 : Nat) ≠ 21000 :=
  ⟨rfl, rfl, by decide, by decide, by decide⟩

/-- C4 as amended: when `assembleTradeLogsV4` succeeds, it returns as many records as
the window has non-removed logs with first topic `kyberTradeEvent`, and the i-th record
is the one built from the i-th such log: the trade decoded from that log, handed to
`updateBasicInfo` with `GasUsed` of the receipt fetched for its transaction hash and
the `Timestamp` resolved for the block number of the log, then given its fee. If
`updateBasicInfo` leaves `Timestamp` and `GasUsed` as it receives them, these are the
values of the returned record. -/
theorem assembleTradeLogsV4_records (crawler : Crawler Fee Reserve Rest)
    (eventLogs : List Log) (result : List (TradeLog Rest))
    (hne : crawler.kyberTradeEvent ≠ feeDistributedEvent)
    (h : assembleTradeLogsV4 crawler eventLogs = .ret result none) :
    result.length = (tradeEvents crawler eventLogs).length ∧
    ∀ (i : Nat) (log : Log), (tradeEvents crawler eventLogs)[i]? = some log →
      ∃ record tl rc ts tl' gasPrice,
        result[i]? = some record ∧
        crawler.fillKyberTradeV4 TradeLog.zero log = .ok tl ∧
        crawler.getTransactionReceipt tl.TransactionHash = .ok rc ∧
        crawler.Resolve log.BlockNumber = .ok ts ∧
        crawler.updateBasicInfo log { tl with GasUsed := rc.GasUsed, Timestamp := ts } =
          .ok tl' ∧
        tl'.GasPrice = some gasPrice ∧
        record = { tl' with TransactionFee := some (gasPrice * int64OfUint64 tl'.GasUsed) } ∧
        ((∀ l t t', crawler.updateBasicInfo l t = .ok t' →
            t'.Timestamp = t.Timestamp ∧ t'.GasUsed = t.GasUsed) →
          record.Timestamp = ts ∧ record.GasUsed = rc.GasUsed) := by
  unfold assembleTradeLogsV4 at h
  obtain ⟨records, h1, h2⟩ := assembleLoop_records crawler hne eventLogs [] result h
  simp only [List.nil_append] at h1
  subst h1
  refine ⟨h2.length_eq.symm, ?_⟩
  intro i log hi
  obtain ⟨record, hrec, hp⟩ := forall₂_getElem? h2 i log hi
  obtain ⟨-, -, tl, rc, ts, tl', gp, hA, hB, hC, hD, hE, hF⟩ :=
    processLog_emit crawler log record hp
  refine ⟨record, tl, rc, ts, tl', gp, hrec, hA, hB, hC, hD, hE, hF, ?_⟩
  intro hinfo
  obtain ⟨hT, hG⟩ := hinfo _ _ _ hD
  subst hF
  exact ⟨hT, hG⟩

/-- The sample `updateBasicInfo` leaves `Timestamp` and `GasUsed` alone. -/
theorem sampleCrawler_updateBasicInfo (l : Log) (t t' : TradeLog Unit)
    (h : sampleCrawler.updateBasicInfo l t = .ok t') :
    t'.Timestamp = t.Timestamp ∧ t'.GasUsed = t.GasUsed := by
  simp only [sampleCrawler] at h
  split at h
  · cases h
  · injection h with h
    subst h
    exact ⟨rfl, rfl⟩

/-- Witness of C4 as amended: `sampleWindow` gives the two records of its two trades, in that
order, each with the timestamp resolved for the block of its log. -/
theorem assembleTradeLogsV4_records_witness :
    sampleCrawler.kyberTradeEvent ≠ feeDistributedEvent ∧
    assembleTradeLogsV4 sampleCrawler sampleWindow = .ret sampleWindowRecords none ∧
    tradeEvents sampleCrawler sampleWindow = [sampleTradeLog, sampleTradeLogLater] ∧
    sampleWindowRecords.length = (tradeEvents sampleCrawler sampleWindow).length ∧
    ∀ (i : Nat) (log : Log), (tradeEvents sampleCrawler sampleWindow)[i]? = some log →
      ∃ record, sampleWindowRecords[i]? = some record ∧
        sampleCrawler.Resolve log.BlockNumber = .ok record.Timestamp :=
  ⟨by decide, by decide, by decide,
    (assembleTradeLogsV4_records sampleCrawler sampleWindow sampleWindowRecords
      (by decide) (by decide)).1,
    fun i log hi => by
      obtain ⟨record, tl, rc, ts, tl', gp, h1, -, -, h4, -, -, -, h8⟩ :=
        (assembleTradeLogsV4_records sampleCrawler sampleWindow sampleWindowRecords
          (by decide) (by decide)).2 i log hi
      exact ⟨record, h1, by rw [h4, (h8 sampleCrawler_updateBasicInfo).1]⟩⟩

/-- C5, the code at the failing input: for a trade whose receipt reports
`GasUsed = 2 ^ 63` (a `uint64` value) and whose gas price is 50000000000, the returned
record has `TransactionFee = 50000000000 * (-(2 ^ 63))`, because `int64(GasUsed)` wraps
round; the exact product `50000000000 * 2 ^ 63` is a different number. -/
theorem assembleTradeLogsV4_fee_wraps :
    assembleTradeLogsV4 sampleCrawler [sampleTradeLogHuge] =
      .ret [sampleRecord "0xhuge" (2 ^ 63) (50000000000 * (-(2 ^ 63)))] none ∧
    (50000000000 * (-(2 ^ 63)) : Int) ≠ 50000000000 * ((2 ^ 63 : Nat) : Int) := by
  refine ⟨?_, ?_⟩ <;> decide

/-- The part of C5 that the code satisfies: every record returned by a
successful `assembleTradeLogsV4` has a gas price and a fee, the fee is the gas price
times `int64(GasUsed)`, and it is the exact product whenever `GasUsed < 2 ^ 63`. -/
theorem assembleTradeLogsV4_fee_below_2_63 (crawler : Crawler Fee Reserve Rest)
    (eventLogs : List Log) (result : List (TradeLog Rest))
    (hne : crawler.kyberTradeEvent ≠ feeDistributedEvent)
    (h : assembleTradeLogsV4 crawler eventLogs = .ret result none) :
    ∀ record ∈ result, ∃ gasPrice, record.GasPrice = some gasPrice ∧
      record.TransactionFee = some (gasPrice * int64OfUint64 record.GasUsed) ∧
      (record.GasUsed < 2 ^ 63 →
        record.TransactionFee = some (gasPrice * (record.GasUsed : Int))) := by
  unfold assembleTradeLogsV4 at h
  obtain ⟨records, h1, h2⟩ := assembleLoop_records crawler hne eventLogs [] result h
  simp only [List.nil_append] at h1
  subst h1
  intro record hmem
  obtain ⟨i, hi⟩ := List.getElem?_of_mem hmem
  obtain ⟨log, -, hp⟩ := forall₂_getElem? h2.flip i record hi
  obtain ⟨gp, hg, hf⟩ := processLog_emit_fee crawler log record hp
  refine ⟨gp, hg, hf, ?_⟩
  intro hlt
  rw [hf, int64OfUint64_of_lt _ hlt]

/-- C6: when the loop gets through the logs before a non-removed trade event and, for
that event, the receipt fetcher or the timestamp resolver fails, `assembleTradeLogsV4`
returns an error and no records at all: neither the trade whose enrichment failed nor
the trades completed before it. -/
theorem assembleTradeLogsV4_enrichment_failure (crawler : Crawler Fee Reserve Rest)
    (pre post : List Log) (log : Log) (result : List (TradeLog Rest)) (tl : TradeLog Rest)
    (hne : crawler.kyberTradeEvent ≠ feeDistributedEvent)
    (hpre : assembleTradeLogsV4 crawler pre = .ret result none)
    (hrem : log.Removed = false)
    (htopic : log.Topics.head? = some crawler.kyberTradeEvent)
    (hfill : crawler.fillKyberTradeV4 TradeLog.zero log = .ok tl)
    (hfail : (∃ err, crawler.getTransactionReceipt tl.TransactionHash = .error err) ∨
      (∃ err, crawler.Resolve log.BlockNumber = .error err)) :
    ∃ err, assembleTradeLogsV4 crawler (pre ++ log :: post) = .ret [] (some err) := by
  unfold assembleTradeLogsV4 at hpre ⊢
  rw [assembleLoop_append_ok crawler pre (log :: post) [] result hpre, assembleLoop_cons]
  cases ht : log.Topics with
  | nil => simp [ht] at htopic
  | cons topic topics =>
    simp only [ht, List.head?_cons, Option.some.injEq] at htopic
    subst htopic
    cases hB : crawler.getTransactionReceipt tl.TransactionHash with
    | error e =>
      refine ⟨.wrap e "failed to get transaction receipt tx: %v", ?_⟩
      simp [processLog, hrem, ht, hne, hfill, hB]
    | ok rc =>
      rcases hfail with ⟨e, he⟩ | ⟨e, he⟩
      · rw [hB] at he; simp at he
      · refine ⟨.wrap e "failed to resolve timestamp by block_number %v", ?_⟩
        simp [processLog, hrem, ht, hne, hfill, hB, he]

/-- Witness of C6: a completed trade followed by a trade whose receipt is missing. -/
theorem assembleTradeLogsV4_enrichment_failure_witness :
    assembleTradeLogsV4 sampleCrawler [sampleTradeLog] =
      .ret [sampleRecord "0xa2" 21000 1050000000000000] none ∧
    sampleCrawler.getTransactionReceipt "0xmissing" = .error (.msg "not found") ∧
    ∃ err, assembleTradeLogsV4 sampleCrawler
      ([sampleTradeLog] ++ sampleTradeLogNoReceipt :: [sampleTradeLog]) = .ret [] (some err) :=
  ⟨by decide, rfl,
    assembleTradeLogsV4_enrichment_failure sampleCrawler [sampleTradeLog] [sampleTradeLog]
      sampleTradeLogNoReceipt [sampleRecord "0xa2" 21000 1050000000000000]
      { (TradeLog.zero : TradeLog Unit) with TransactionHash := "0xmissing" }
      (by decide) (by decide) (by decide) (by decide) rfl
      (Or.inl ⟨.msg "not found", rfl⟩)⟩

/-- C7 refuted: the receipt fetched for the trade of `sampleTradeLogReverted` carries
status 0 (not successful), and `assembleTradeLogsV4` returns the record of that trade
and no error. -/
theorem assembleTradeLogsV4_failed_status_counterexample :
    sampleCrawler.getTransactionReceipt "0xreverted" = .ok { Status := 0, GasUsed := 21000 } ∧
    assembleTradeLogsV4 sampleCrawler [sampleTradeLogReverted] =
      .ret [sampleRecord "0xreverted" 21000 1050000000000000] none :=
  ⟨rfl, by decide⟩

/-- C7 as amended: `assembleTradeLogsV4` does not read the status of a receipt; the
outcome (records and error) is the same whatever status the fetched receipts carry. -/
theorem assembleTradeLogsV4_status_irrelevant (crawler : Crawler Fee Reserve Rest)
    (status : String → Nat) (eventLogs : List Log) :
    assembleTradeLogsV4 (crawler.withReceiptStatus status) eventLogs =
      assembleTradeLogsV4 crawler eventLogs := by
  have hstep : ∀ log, processLog (crawler.withReceiptStatus status) log =
      processLog crawler log := by
    intro log
    unfold processLog fillFeeDistributed fillAddReserveToStorage Crawler.withReceiptStatus
    simp only []
    by_cases hr : log.Removed = true
    · simp [hr]
    · have hr' : log.Removed = false := by simpa using hr
      simp only [hr', Bool.false_eq_true, if_false]
      cases log.Topics with
      | nil => rfl
      | cons topic topics =>
        simp only []
        cases crawler.fillKyberTradeV4 TradeLog.zero log with
        | error e => rfl
        | ok tl =>
          simp only []
          cases crawler.getTransactionReceipt tl.TransactionHash with
          | error e => rfl
          | ok rc => rfl
  have hloop : ∀ result, assembleLoop (crawler.withReceiptStatus status) eventLogs result
      TradeLog.zero = assembleLoop crawler eventLogs result TradeLog.zero := by
    induction eventLogs with
    | nil => intro result; simp [assembleLoop_nil]
    | cons log rest ih =>
      intro result
      rw [assembleLoop_cons, assembleLoop_cons, hstep]
      cases processLog crawler log <;> simp [ih]
  exact hloop []

/-- A fee, add-reserve or rebate-wallet log that decodes is passed over. -/
theorem processLog_fee_registry (crawler : Crawler Fee Reserve Rest) (log : Log)
    (hk1 : crawler.kyberTradeEvent ≠ addReserveToStorageEvent)
    (hk2 : crawler.kyberTradeEvent ≠ reserveRebateWalletSetEvent)
    (hrem : log.Removed = false)
    (h : (log.Topics.head? = some feeDistributedEvent ∧
          ∃ fee, crawler.ParseFeeDistributed log = .ok fee) ∨
        (log.Topics.head? = some addReserveToStorageEvent ∧
          ∃ reserve, crawler.ParseAddReserveToStorage log = .ok reserve) ∨
        log.Topics.head? = some reserveRebateWalletSetEvent) :
    processLog crawler log = .skip := by
  cases ht : log.Topics with
  | nil => simp [ht] at h
  | cons topic topics =>
    simp only [ht, List.head?_cons, Option.some.injEq] at h
    rcases h with ⟨h, fee, hfee⟩ | ⟨h, reserve, hres⟩ | h
    · simp [processLog, hrem, ht, h, fillFeeDistributed, hfee]
    · have e1 : addReserveToStorageEvent ≠ feeDistributedEvent := by decide
      simp [processLog, hrem, ht, h, fillAddReserveToStorage, hres, e1, hk1.symm]
    · have e1 : reserveRebateWalletSetEvent ≠ feeDistributedEvent := by decide
      have e2 : reserveRebateWalletSetEvent ≠ addReserveToStorageEvent := by decide
      simp [processLog, hrem, ht, h, fillRebateWalletSet, e1, e2, hk2.symm]

/-- C8 refuted: for the window of a fee-distribution log, a trade log and an
add-reserve log, all of which decode, `assembleTradeLogsV4` returns one entry (the
trade record), not three. -/
theorem assembleTradeLogsV4_window_counterexample :
    sampleCrawler.ParseFeeDistributed sampleFeeLog = .ok [10] ∧
    sampleCrawler.ParseAddReserveToStorage sampleReserveLog = .ok [1] ∧
    assembleTradeLogsV4 sampleCrawler [sampleFeeLog, sampleTradeLog, sampleReserveLog] =
      .ret [sampleRecord "0xa2" 21000 1050000000000000] none ∧
    [sampleRecord "0xa2" 21000 1050000000000000].length ≠ 3 :=
  ⟨rfl, rfl, by decide, by decide⟩

/-- C8 as amended: a non-removed fee-distribution, add-reserve or rebate-wallet log
that decodes adds no entry to the output and leaves nothing behind: the outcome of the
window is the outcome of the window without that log. So a window of a fee log, a trade
log and an add-reserve log returns exactly what the trade log alone returns, its one
record. -/
theorem assembleTradeLogsV4_fee_registry_logs (crawler : Crawler Fee Reserve Rest)
    (hk1 : crawler.kyberTradeEvent ≠ addReserveToStorageEvent)
    (hk2 : crawler.kyberTradeEvent ≠ reserveRebateWalletSetEvent) :
    (∀ (pre post : List Log) (log : Log), log.Removed = false →
      ((log.Topics.head? = some feeDistributedEvent ∧
          ∃ fee, crawler.ParseFeeDistributed log = .ok fee) ∨
        (log.Topics.head? = some addReserveToStorageEvent ∧
          ∃ reserve, crawler.ParseAddReserveToStorage log = .ok reserve) ∨
        log.Topics.head? = some reserveRebateWalletSetEvent) →
      assembleTradeLogsV4 crawler (pre ++ log :: post) =
        assembleTradeLogsV4 crawler (pre ++ post)) ∧
    (∀ (feeLog trade reserveLog : Log) (record : TradeLog Rest),
      feeLog.Removed = false → feeLog.Topics.head? = some feeDistributedEvent →
      (∃ fee, crawler.ParseFeeDistributed feeLog = .ok fee) →
      reserveLog.Removed = false →
      reserveLog.Topics.head? = some addReserveToStorageEvent →
      (∃ reserve, crawler.ParseAddReserveToStorage reserveLog = .ok reserve) →
      assembleTradeLogsV4 crawler [trade] = .ret [record] none →
      assembleTradeLogsV4 crawler [feeLog, trade, reserveLog] = .ret [record] none) := by
  have hdel : ∀ (pre post : List Log) (log : Log), log.Removed = false →
      ((log.Topics.head? = some feeDistributedEvent ∧
          ∃ fee, crawler.ParseFeeDistributed log = .ok fee) ∨
        (log.Topics.head? = some addReserveToStorageEvent ∧
          ∃ reserve, crawler.ParseAddReserveToStorage log = .ok reserve) ∨
        log.Topics.head? = some reserveRebateWalletSetEvent) →
      assembleTradeLogsV4 crawler (pre ++ log :: post) =
        assembleTradeLogsV4 crawler (pre ++ post) := by
    intro pre post log hrem h
    unfold assembleTradeLogsV4
    apply assembleLoop_append_congr
    intro result
    rw [assembleLoop_cons, processLog_fee_registry crawler log hk1 hk2 hrem h]
  refine ⟨hdel, ?_⟩
  intro feeLog trade reserveLog record hf1 hf2 hf3 hr1 hr2 hr3 ht
  have s1 := hdel [] [trade, reserveLog] feeLog hf1 (Or.inl ⟨hf2, hf3⟩)
  have s2 := hdel [trade] [] reserveLog hr1 (Or.inr (Or.inl ⟨hr2, hr3⟩))
  simp only [List.nil_append, List.singleton_append, List.append_nil] at s1 s2
  rw [s1, s2, ht]

/-- Witness of C8 as amended, on the sample window. -/
theorem assembleTradeLogsV4_fee_registry_logs_witness :
    assembleTradeLogsV4 sampleCrawler [sampleFeeLog, sampleTradeLog, sampleReserveLog] =
      .ret [sampleRecord "0xa2" 21000 1050000000000000] none :=
  (assembleTradeLogsV4_fee_registry_logs sampleCrawler (by decide) (by decide)).2
    sampleFeeLog sampleTradeLog sampleReserveLog (sampleRecord "0xa2" 21000 1050000000000000)
    rfl rfl ⟨[10], rfl⟩ rfl rfl ⟨[1], rfl⟩ (by decide)

/-- A successful run of the loop adds the same records to whatever list it starts
with. -/
theorem assembleLoop_ok_from (crawler : Crawler Fee Reserve Rest) (eventLogs : List Log) :
    ∀ result result', assembleLoop crawler eventLogs result TradeLog.zero = .ret result' none →
      ∃ records, result' = result ++ records ∧
        ∀ start, assembleLoop crawler eventLogs start TradeLog.zero =
          .ret (start ++ records) none := by
  induction eventLogs with
  | nil =>
    intro result result' h
    rw [assembleLoop_nil] at h
    simp only [Outcome.ret.injEq, and_true] at h
    exact ⟨[], by simp [h], fun start => by simp [assembleLoop_nil]⟩
  | cons log rest ih =>
    intro result result' h
    rw [assembleLoop_cons] at h
    cases hp : processLog crawler log with
    | skip =>
      rw [hp] at h
      obtain ⟨records, h1, h2⟩ := ih _ _ h
      exact ⟨records, h1, fun start => by rw [assembleLoop_cons, hp]; exact h2 start⟩
    | emit record =>
      rw [hp] at h
      obtain ⟨records, h1, h2⟩ := ih _ _ h
      refine ⟨record :: records, by simp [h1], fun start => ?_⟩
      rw [assembleLoop_cons, hp]
      simpa using h2 (start ++ [record])
    | failNil err => rw [hp] at h; simp at h
    | failKeep err => rw [hp] at h; simp at h
    | panic => rw [hp] at h; simp at h

/-- A run of the loop that does not succeed is not changed by logs after it. -/
theorem assembleLoop_append_fail (crawler : Crawler Fee Reserve Rest) (pre rest : List Log) :
    ∀ result, (∀ r, assembleLoop crawler pre result TradeLog.zero ≠ .ret r none) →
      assembleLoop crawler (pre ++ rest) result TradeLog.zero =
        assembleLoop crawler pre result TradeLog.zero := by
  induction pre with
  | nil =>
    intro result h
    exact absurd (assembleLoop_nil crawler result TradeLog.zero) (h result)
  | cons log pre ih =>
    intro result h
    rw [assembleLoop_cons] at h
    simp only [List.cons_append, assembleLoop_cons]
    cases hp : processLog crawler log with
    | skip => rw [hp] at h; exact ih _ h
    | emit record => rw [hp] at h; exact ih _ h
    | failNil err => rfl
    | failKeep err => rfl
    | panic => rfl

/-- Whether the loop panics, and the error it returns, do not depend on the list it
starts with. -/
theorem assembleLoop_error_from (crawler : Crawler Fee Reserve Rest) (eventLogs : List Log) :
    ∀ result start,
      (assembleLoop crawler eventLogs result TradeLog.zero = .panic →
        assembleLoop crawler eventLogs start TradeLog.zero = .panic) ∧
      (∀ l err, assembleLoop crawler eventLogs result TradeLog.zero = .ret l (some err) →
        ∃ l', assembleLoop crawler eventLogs start TradeLog.zero = .ret l' (some err)) := by
  induction eventLogs with
  | nil =>
    intro result start
    simp [assembleLoop_nil]
  | cons log rest ih =>
    intro result start
    simp only [assembleLoop_cons]
    cases hp : processLog crawler log with
    | skip => exact ih _ _
    | emit record => exact ih _ _
    | failNil err => simp
    | failKeep err => simp
    | panic => simp

/-- The loop never looks at the trade log handed to `fillKyberTradeV4` other than the
zero value. -/
theorem processLog_ignoringAccumulator (crawler : Crawler Fee Reserve Rest) (log : Log) :
    processLog crawler.ignoringAccumulator log = processLog crawler log := by
  unfold processLog fillFeeDistributed fillAddReserveToStorage Crawler.ignoringAccumulator
  rfl

/-- C12: the trade log handed to `fillKyberTradeV4` is always the zero value (a crawler
whose `fillKyberTradeV4` disregards it gives the same outcome on every window), and
splitting a window changes nothing: when `xs` succeeds with `r1` and `ys` succeeds with
`r2`, `xs ++ ys` succeeds with `r1 ++ r2`; when the run on `xs` or the run on `ys` does
not succeed, the run on `xs ++ ys` does not succeed: it is the failed run on `xs`, or,
after a successful `xs`, it returns the error of `ys` (panics if `ys` panics). -/
theorem assembleTradeLogsV4_append (crawler : Crawler Fee Reserve Rest) (xs ys : List Log) :
    assembleTradeLogsV4 crawler.ignoringAccumulator (xs ++ ys) =
      assembleTradeLogsV4 crawler (xs ++ ys) ∧
    (∀ r1 r2, assembleTradeLogsV4 crawler xs = .ret r1 none →
      assembleTradeLogsV4 crawler ys = .ret r2 none →
      assembleTradeLogsV4 crawler (xs ++ ys) = .ret (r1 ++ r2) none) ∧
    (((∀ r, assembleTradeLogsV4 crawler xs ≠ .ret r none) ∨
        (∀ r, assembleTradeLogsV4 crawler ys ≠ .ret r none)) →
      ∀ r, assembleTradeLogsV4 crawler (xs ++ ys) ≠ .ret r none) ∧
    ((∀ r, assembleTradeLogsV4 crawler xs ≠ .ret r none) →
      assembleTradeLogsV4 crawler (xs ++ ys) = assembleTradeLogsV4 crawler xs) ∧
    (∀ r1 l err, assembleTradeLogsV4 crawler xs = .ret r1 none →
      assembleTradeLogsV4 crawler ys = .ret l (some err) →
      ∃ l', assembleTradeLogsV4 crawler (xs ++ ys) = .ret l' (some err)) ∧
    (∀ r1, assembleTradeLogsV4 crawler xs = .ret r1 none →
      assembleTradeLogsV4 crawler ys = .panic →
      assembleTradeLogsV4 crawler (xs ++ ys) = .panic) := by
  unfold assembleTradeLogsV4
  have hacc : ∀ (logs : List Log) (result : List (TradeLog Rest)),
      assembleLoop crawler.ignoringAccumulator logs result TradeLog.zero =
        assembleLoop crawler logs result TradeLog.zero := by
    intro logs
    induction logs with
    | nil => intro result; simp [assembleLoop_nil]
    | cons log rest ih =>
      intro result
      rw [assembleLoop_cons, assembleLoop_cons, processLog_ignoringAccumulator]
      cases processLog crawler log <;> simp [ih]
  have hok : ∀ r1 r2, assembleLoop crawler xs [] TradeLog.zero = .ret r1 none →
      assembleLoop crawler ys [] TradeLog.zero = .ret r2 none →
      assembleLoop crawler (xs ++ ys) [] TradeLog.zero = .ret (r1 ++ r2) none := by
    intro r1 r2 h1 h2
    rw [assembleLoop_append_ok crawler xs ys [] r1 h1]
    obtain ⟨records, hr, hfrom⟩ := assembleLoop_ok_from crawler ys [] r2 h2
    simp only [List.nil_append] at hr
    rw [hfrom r1, hr]
  have hxs : (∀ r, assembleLoop crawler xs [] TradeLog.zero ≠ .ret r none) →
      assembleLoop crawler (xs ++ ys) [] TradeLog.zero =
        assembleLoop crawler xs [] TradeLog.zero :=
    assembleLoop_append_fail crawler xs ys []
  have herr : ∀ r1 l err, assembleLoop crawler xs [] TradeLog.zero = .ret r1 none →
      assembleLoop crawler ys [] TradeLog.zero = .ret l (some err) →
      ∃ l', assembleLoop crawler (xs ++ ys) [] TradeLog.zero = .ret l' (some err) := by
    intro r1 l err h1 h2
    rw [assembleLoop_append_ok crawler xs ys [] r1 h1]
    exact (assembleLoop_error_from crawler ys [] r1).2 l err h2
  have hpanic : ∀ r1, assembleLoop crawler xs [] TradeLog.zero = .ret r1 none →
      assembleLoop crawler ys [] TradeLog.zero = .panic →
      assembleLoop crawler (xs ++ ys) [] TradeLog.zero = .panic := by
    intro r1 h1 h2
    rw [assembleLoop_append_ok crawler xs ys [] r1 h1]
    exact (assembleLoop_error_from crawler ys [] r1).1 h2
  refine ⟨hacc _ _, hok, ?_, hxs, herr, hpanic⟩
  rintro (hx | hy) r hr
  · rw [hxs hx] at hr
    exact hx r hr
  · cases hX : assembleLoop crawler xs [] TradeLog.zero with
    | panic =>
      have hx : ∀ r, assembleLoop crawler xs [] TradeLog.zero ≠ .ret r none := by
        intro r; rw [hX]; simp
      rw [hxs hx, hX] at hr
      simp at hr
    | ret l e =>
      cases e with
      | some err =>
        have hx : ∀ r, assembleLoop crawler xs [] TradeLog.zero ≠ .ret r none := by
          intro r; rw [hX]; simp
        rw [hxs hx, hX] at hr
        simp at hr
      | none =>
        cases hY : assembleLoop crawler ys [] TradeLog.zero with
        | panic =>
          rw [hpanic l hX hY] at hr
          simp at hr
        | ret l2 e2 =>
          cases e2 with
          | none => exact hy l2 hY
          | some err =>
            obtain ⟨l', hl'⟩ := herr l l2 err hX hY
            rw [hl'] at hr
            simp at hr

/-- Witness of C12: a window that succeeds, split after its second log. -/
theorem assembleTradeLogsV4_append_witness :
    assembleTradeLogsV4 sampleCrawler [sampleFeeLog, sampleTradeLog] =
      .ret [sampleRecord "0xa2" 21000 1050000000000000] none ∧
    assembleTradeLogsV4 sampleCrawler [sampleReserveLog, sampleTradeLogLater] =
      .ret [{ sampleRecord "0xb7" 21000 1050000000000000 with Timestamp := 1600000009 }]
        none ∧
    assembleTradeLogsV4 sampleCrawler
        ([sampleFeeLog, sampleTradeLog] ++ [sampleReserveLog, sampleTradeLogLater]) =
      .ret ([sampleRecord "0xa2" 21000 1050000000000000] ++
        [{ sampleRecord "0xb7" 21000 1050000000000000 with Timestamp := 1600000009 }])
        none ∧
    (∀ r, assembleTradeLogsV4 sampleCrawler
        ([sampleFeeLog, sampleTradeLog] ++ [sampleUnknownLog]) ≠ .ret r none) :=
  ⟨by decide, by decide,
    (assembleTradeLogsV4_append sampleCrawler [sampleFeeLog, sampleTradeLog]
      [sampleReserveLog, sampleTradeLogLater]).2.1 _ _ (by decide) (by decide),
    (assembleTradeLogsV4_append sampleCrawler [sampleFeeLog, sampleTradeLog]
      [sampleUnknownLog]).2.2.1 (Or.inr (fun r hr => by
        rw [show assembleTradeLogsV4 sampleCrawler [sampleUnknownLog] =
          .ret [] (some (.msg "unknown log topic")) from by decide] at hr
        simp at hr))⟩

end AssemblerProperties

end Tradelogs

namespace Blockchain

/-! ## Properties of the blockchain utilities -/

/-- C9: `IsBurnable t` is false exactly when `t` is one of the three addresses of
`notBurnTokens` (`ETHAddr`, `WETHAddr`, `KCCAddr`), and true for every other address. -/
theorem IsBurnable_false_iff {Address : Type} [DecidableEq Address]
    (ETHAddr WETHAddr KCCAddr t : Address) :
    (IsBurnable ETHAddr WETHAddr KCCAddr t = false ↔
      t = ETHAddr ∨ t = WETHAddr ∨ t = KCCAddr) ∧
    (IsBurnable ETHAddr WETHAddr KCCAddr t = true ↔
      ¬ (t = ETHAddr ∨ t = WETHAddr ∨ t = KCCAddr)) := by
  unfold IsBurnable notBurnTokens
  simp only [isBurnableLoop]
  by_cases h1 : ETHAddr = t
  · simp [h1]
  · by_cases h2 : WETHAddr = t
    · simp [h1, h2]
    · by_cases h3 : KCCAddr = t
      · simp [h1, h2, h3]
      · simp [h1, h2, h3, Ne.symm h1, Ne.symm h2, Ne.symm h3]

theorem log2Fuel_eq_log : ∀ (fuel n : Nat), n ≤ fuel → log2Fuel fuel n = Nat.log 2 n := by
  intro fuel
  induction fuel with
  | zero =>
    intro n hn
    have : n = 0 := by omega
    subst this
    simp [log2Fuel]
  | succ fuel ih =>
    intro n hn
    rw [log2Fuel]
    by_cases h : n < 2
    · rw [if_pos h, Nat.log_of_lt h]
    · rw [if_neg h, ih (n / 2) (by omega)]
      have h2 : 2 ≤ n := by omega
      rw [Nat.log_of_one_lt_of_le (by norm_num) h2]

theorem ilog2_eq_log (n : Nat) : ilog2 n = Nat.log 2 n :=
  log2Fuel_eq_log n n le_rfl

/-- The exponent chosen by `floorLog2` brackets the quotient:
`2 ^ L ≤ num / den < 2 ^ (L + 1)`. -/
theorem floorLog2_spec (num den : Nat) (hnum : 0 < num) (hden : 0 < den) :
    (2 : ℚ) ^ floorLog2 num den ≤ (num : ℚ) / den ∧
    (num : ℚ) / den < (2 : ℚ) ^ (floorLog2 num den + 1) := by
  have hdq : (0 : ℚ) < den := by exact_mod_cast hden
  have hnq : (0 : ℚ) < num := by exact_mod_cast hnum
  unfold floorLog2
  by_cases h : den ≤ num
  · rw [if_pos h, ilog2_eq_log]
    have hq0 : num / den ≠ 0 := by
      exact Nat.pos_iff_ne_zero.mp (Nat.div_pos h hden)
    have h1 : 2 ^ Nat.log 2 (num / den) ≤ num / den := Nat.pow_log_le_self 2 hq0
    have h2 : num / den < 2 ^ (Nat.log 2 (num / den) + 1) :=
      Nat.lt_pow_succ_log_self (by norm_num) _
    generalize Nat.log 2 (num / den) = L at h1 h2
    have h1' : den * 2 ^ L ≤ num := by
      calc den * 2 ^ L ≤ den * (num / den) := Nat.mul_le_mul_left _ h1
        _ ≤ num := Nat.mul_div_le _ _
    have h2' : num < den * 2 ^ (L + 1) := by
      have := (Nat.div_lt_iff_lt_mul hden).1 h2
      rw [Nat.mul_comm]; exact this
    constructor
    · rw [zpow_natCast, le_div_iff₀ hdq]
      have : ((den * 2 ^ L : Nat) : ℚ) ≤ (num : ℚ) := by exact_mod_cast h1'
      push_cast at this
      linarith
    · rw [show ((L : Int) + 1) = ((L + 1 : Nat) : Int) by push_cast; rfl, zpow_natCast,
        div_lt_iff₀ hdq]
      have : ((num : Nat) : ℚ) < ((den * 2 ^ (L + 1) : Nat) : ℚ) := by exact_mod_cast h2'
      push_cast at this
      linarith
  · rw [if_neg h, ilog2_eq_log]
    have hlt : num < den := by omega
    have hF : (den - 1) / num ≠ 0 := by
      exact Nat.pos_iff_ne_zero.mp (Nat.div_pos (by omega) hnum)
    have h1 : 2 ^ Nat.log 2 ((den - 1) / num) ≤ (den - 1) / num := Nat.pow_log_le_self 2 hF
    have h2 : (den - 1) / num < 2 ^ (Nat.log 2 ((den - 1) / num) + 1) :=
      Nat.lt_pow_succ_log_self (by norm_num) _
    generalize Nat.log 2 ((den - 1) / num) = c at h1 h2
    have h1' : num * 2 ^ c < den := by
      have : num * 2 ^ c ≤ num * ((den - 1) / num) := Nat.mul_le_mul_left _ h1
      have := Nat.mul_div_le (den - 1) num
      omega
    have h2' : den ≤ num * 2 ^ (c + 1) := by
      have := (Nat.div_lt_iff_lt_mul hnum).1 h2
      rw [Nat.mul_comm] at this
      omega
    have hp : (0 : ℚ) < 2 ^ (c + 1) := by positivity
    have hp' : (0 : ℚ) < 2 ^ c := by positivity
    constructor
    · rw [zpow_neg, show ((c : Int) + 1) = ((c + 1 : Nat) : Int) by push_cast; rfl, zpow_natCast,
        le_div_iff₀ hdq, inv_mul_le_iff₀ hp]
      have : ((den : Nat) : ℚ) ≤ ((num * 2 ^ (c + 1) : Nat) : ℚ) := by exact_mod_cast h2'
      push_cast at this
      linarith
    · rw [show (-((c : Int) + 1) + 1) = -((c : Nat) : Int) by ring, zpow_neg, zpow_natCast,
        div_lt_iff₀ hdq, lt_inv_mul_iff₀ hp']
      have : ((num * 2 ^ c : Nat) : ℚ) < ((den : Nat) : ℚ) := by exact_mod_cast h1'
      push_cast at this
      linarith

theorem two_zpow_split (E : Int) :
    (2 : ℚ) ^ E = (2 : ℚ) ^ E.toNat / (2 : ℚ) ^ (-E).toNat := by
  rcases le_or_lt 0 E with h | h
  · obtain ⟨t, rfl⟩ := Int.eq_ofNat_of_zero_le h
    have e2 : (-(t : Int)).toNat = 0 := by omega
    rw [e2, Int.toNat_ofNat, pow_zero, div_one, zpow_natCast]
  · obtain ⟨t, rfl⟩ : ∃ t : Nat, E = -(t : Int) := ⟨(-E).toNat, by omega⟩
    have e1 : (-(t : Int)).toNat = 0 := by omega
    rw [e1, neg_neg, Int.toNat_ofNat, pow_zero, zpow_neg, zpow_natCast, one_div]

/-- A finite result of `roundNearestEven` lies within half a unit in the last place of
`num / den`, the unit being `2 ^ e` with `e = max (⌊log₂ (num / den)⌋ - 52) (-1074)`. -/
theorem roundNearestEven_error (neg s : Bool) (num den m : Nat) (e : Int) (hden : 0 < den)
    (hnum : num ≠ 0) (h : roundNearestEven neg num den = .fin s m e) :
    e = max (floorLog2 num den - 52) (-1074) ∧
    |(m : ℚ) * (2 : ℚ) ^ e - (num : ℚ) / den| ≤ (2 : ℚ) ^ e / 2 := by
  unfold roundNearestEven at h
  rw [if_neg hnum] at h
  simp only [] at h
  generalize hE : max (floorLog2 num den - 52) (-1074) = E at h
  have hd : 0 < den * 2 ^ E.toNat := by positivity
  have hdq : (0 : ℚ) < ((den * 2 ^ E.toNat : Nat) : ℚ) := by exact_mod_cast hd
  have hdiv := Nat.div_add_mod (num * 2 ^ (-E).toNat) (den * 2 ^ E.toNat)
  have hrlt := Nat.mod_lt (num * 2 ^ (-E).toNat) hd
  generalize num * 2 ^ (-E).toNat / (den * 2 ^ E.toNat) = q at h hdiv
  generalize num * 2 ^ (-E).toNat % (den * 2 ^ E.toNat) = r at h hdiv hrlt
  generalize hm : (if 2 * r < den * 2 ^ E.toNat then q
    else if den * 2 ^ E.toNat < 2 * r then q + 1 else if q % 2 = 0 then q else q + 1) = m' at h
  by_cases hov : 971 < E ∨ E = 971 ∧ 2 ^ 53 ≤ m'
  · rw [if_pos hov] at h; cases h
  · rw [if_neg hov] at h
    simp only [Float64.fin.injEq] at h
    obtain ⟨-, h2, h3⟩ := h
    subst h2 h3
    refine ⟨rfl, ?_⟩
    have hpE : (0 : ℚ) < (2 : ℚ) ^ E := by positivity
    have hval : (num : ℚ) / den =
        ((q : ℚ) + (r : ℚ) / ((den * 2 ^ E.toNat : Nat) : ℚ)) * (2 : ℚ) ^ E := by
      have hdivq : ((num * 2 ^ (-E).toNat : Nat) : ℚ) =
          ((den * 2 ^ E.toNat : Nat) : ℚ) * q + r := by exact_mod_cast hdiv.symm
      rw [two_zpow_split E]
      push_cast at hdivq ⊢
      have h1 : (0 : ℚ) < (den : ℚ) := by exact_mod_cast hden
      have h2 : (0 : ℚ) < (2 : ℚ) ^ E.toNat := by positivity
      have h3 : (0 : ℚ) < (2 : ℚ) ^ (-E).toNat := by positivity
      field_simp
      linear_combination ((2 : ℚ) ^ E.toNat * den) * hdivq
    have key : |(m' : ℚ) - ((q : ℚ) + (r : ℚ) / ((den * 2 ^ E.toNat : Nat) : ℚ))| ≤ 1 / 2 := by
      generalize den * 2 ^ E.toNat = d at hd hdq hrlt hm
      replace hm := hm.symm
      have hrq : (r : ℚ) < d := by exact_mod_cast hrlt
      have hr0 : (0 : ℚ) ≤ r := by positivity
      rw [abs_le]
      by_cases c1 : 2 * r < d
      · rw [if_pos c1] at hm
        subst hm
        have : (2 : ℚ) * r < d := by exact_mod_cast c1
        constructor
        · rw [neg_le_sub_iff_le_add]
          have : (r : ℚ) / d ≤ 1 / 2 := by rw [div_le_iff₀ hdq]; linarith
          linarith
        · have : (0 : ℚ) ≤ (r : ℚ) / d := by positivity
          linarith
      · rw [if_neg c1] at hm
        by_cases c2 : d < 2 * r
        · rw [if_pos c2] at hm
          subst hm
          have : (d : ℚ) < 2 * r := by exact_mod_cast c2
          have h5 : (1 : ℚ) / 2 ≤ (r : ℚ) / d := by rw [le_div_iff₀ hdq]; linarith
          have h6 : (r : ℚ) / d ≤ 1 := by rw [div_le_iff₀ hdq]; linarith
          push_cast
          constructor <;> linarith
        · rw [if_neg c2] at hm
          have c3 : 2 * r = d := by omega
          have c3q : (2 : ℚ) * r = d := by exact_mod_cast c3
          have h5 : (r : ℚ) / d = 1 / 2 := by
            rw [div_eq_iff (ne_of_gt hdq)]; linarith
          split at hm
          · subst hm
            rw [h5]; constructor <;> linarith
          · subst hm
            push_cast
            rw [h5]; constructor <;> linarith
    rw [hval, ← sub_mul, abs_mul, abs_of_pos hpE]
    calc |(m' : ℚ) - ((q : ℚ) + (r : ℚ) / ((den * 2 ^ E.toNat : Nat) : ℚ))| * (2 : ℚ) ^ E
        ≤ 1 / 2 * (2 : ℚ) ^ E := mul_le_mul_of_nonneg_right key hpE.le
      _ = (2 : ℚ) ^ E / 2 := by ring

theorem pow10_exact (k : Nat) (hk : k ≤ 6) :
    ∃ M E, Pow10 (k : Int) = .fin false M E ∧ (M : ℚ) * (2 : ℚ) ^ E = 10 ^ k := by
  interval_cases k
  · exact ⟨4503599627370496, -52, by decide, by norm_num⟩
  · exact ⟨5629499534213120, -49, by decide, by norm_num⟩
  · exact ⟨7036874417766400, -46, by decide, by norm_num⟩
  · exact ⟨8796093022208000, -43, by decide, by norm_num⟩
  · exact ⟨5497558138880000, -39, by decide, by norm_num⟩
  · exact ⟨6871947673600000, -36, by decide, by norm_num⟩
  · exact ⟨8589934592000000, -33, by decide, by norm_num⟩

theorem roundNearestEven_toInt64_exact (num den N a b : Nat) (hden : 0 < den)
    (hnum : num = N * den) (hN : N = a * 2 ^ b) (ha : a < 2 ^ 53) (hlt : N < 2 ^ 63) :
    (roundNearestEven false num den).toInt64 = some (N : Int) := by
  by_cases hN0 : N = 0
  · subst hN0
    have : num = 0 := by simp [hnum]
    subst this
    simp [roundNearestEven, Float64.toInt64]
  · have hnum0 : num ≠ 0 := by
      rw [hnum]; exact Nat.mul_ne_zero hN0 (by omega)
    have hle : den ≤ num := by
      rw [hnum]; exact Nat.le_mul_of_pos_left _ (by omega)
    have hdiv : num / den = N := by rw [hnum]; exact Nat.mul_div_cancel _ hden
    have hL : floorLog2 num den = (Nat.log 2 N : Int) := by
      simp [floorLog2, hle, hdiv, ilog2_eq_log]
    have hL62 : Nat.log 2 N < 63 := Nat.log_lt_of_lt_pow hN0 hlt
    have hLb : Nat.log 2 N < 53 + b := by
      apply Nat.log_lt_of_lt_pow hN0
      rw [hN, pow_add]
      exact Nat.mul_lt_mul_of_pos_right ha (by positivity)
    generalize Nat.log 2 N = L at hL hL62 hLb
    have he : max ((L : Int) - 52) (-1074) = (L : Int) - 52 := by omega
    have hNlt : (N : Int) < 2 ^ 63 := by exact_mod_cast hlt
    unfold roundNearestEven
    rw [if_neg hnum0]
    simp only [hL, he]
    by_cases h52 : 52 ≤ L
    · obtain ⟨k, hk⟩ : ∃ k : Nat, L = 52 + k := ⟨L - 52, by omega⟩
      subst hk
      have e1 : (((52 + k : Nat) : Int) - 52).toNat = k := by omega
      have e2 : (-(((52 + k : Nat) : Int) - 52)).toNat = 0 := by omega
      have hkb : k ≤ b := by omega
      obtain ⟨N', hN'⟩ : ∃ N', N = N' * 2 ^ k :=
        ⟨a * 2 ^ (b - k), by rw [hN, mul_assoc, ← pow_add]; congr 2; omega⟩
      have hn : num = N' * (den * 2 ^ k) := by rw [hnum, hN']; ring
      have hd : 0 < den * 2 ^ k := by positivity
      have hq : num / (den * 2 ^ k) = N' := by rw [hn]; exact Nat.mul_div_cancel _ hd
      have hr : num % (den * 2 ^ k) = 0 := by rw [hn]; exact Nat.mul_mod_left _ _
      simp only [e1, e2, pow_zero, mul_one, hq, hr, mul_zero, hd, if_true]
      rw [if_neg (by omega)]
      simp only [Float64.toInt64, e1, e2, pow_zero, Nat.div_one]
      rw [← hN']
      simp [hNlt]
      omega
    · obtain ⟨j, hj⟩ : ∃ j : Nat, 52 = L + j := ⟨52 - L, by omega⟩
      have e1 : ((L : Int) - 52).toNat = 0 := by omega
      have e2 : (-((L : Int) - 52)).toNat = j := by omega
      have hn : num * 2 ^ j = N * 2 ^ j * den := by rw [hnum]; ring
      have hq : num * 2 ^ j / den = N * 2 ^ j := by rw [hn]; exact Nat.mul_div_cancel _ hden
      have hr : num * 2 ^ j % den = 0 := by rw [hn]; exact Nat.mul_mod_left _ _
      simp only [e1, e2, pow_zero, mul_one, hq, hr, mul_zero, hden, if_true]
      rw [if_neg (by omega)]
      simp only [Float64.toInt64, e1, e2, pow_zero, mul_one]
      rw [Nat.mul_div_cancel _ (by positivity)]
      simp [hNlt]
      omega

theorem mul_toInt64_exact (m M : Nat) (e E : Int) (N a b : Nat)
    (h : (m : ℚ) * (2 : ℚ) ^ e * ((M : ℚ) * (2 : ℚ) ^ E) = N)
    (hN : N = a * 2 ^ b) (ha : a < 2 ^ 53) (hlt : N < 2 ^ 63) :
    ((Float64.fin false m e).mul (.fin false M E)).toInt64 = some (N : Int) := by
  have h' : ((m * M : Nat) : ℚ) * (2 : ℚ) ^ (e + E) = N := by
    rw [zpow_add₀ (by norm_num : (2 : ℚ) ≠ 0), ← h]; push_cast; ring
  simp only [Float64.mul, Bool.xor_false]
  apply roundNearestEven_toInt64_exact _ _ N a b (by positivity) _ hN ha hlt
  generalize e + E = s at h'
  rcases le_or_lt 0 s with hs | hs
  · obtain ⟨t, rfl⟩ := Int.eq_ofNat_of_zero_le hs
    have e2 : (-(t : Int)).toNat = 0 := by omega
    simp only [Int.toNat_ofNat, e2, pow_zero, mul_one]
    rw [zpow_natCast] at h'
    exact_mod_cast h'
  · obtain ⟨t, rfl⟩ : ∃ t : Nat, s = -(t : Int) := ⟨(-s).toNat, by omega⟩
    have e1 : (-(t : Int)).toNat = 0 := by omega
    simp only [e1, neg_neg, Int.toNat_ofNat, pow_zero, mul_one]
    rw [zpow_neg, zpow_natCast] at h'
    have h2 : ((m * M : Nat) : ℚ) = (N : ℚ) * 2 ^ t := by
      field_simp at h'
      push_cast
      exact h'
    exact_mod_cast h2

theorem floatToBigInt_exact_aux (m : Nat) (e decimal : Int) (N a b : Nat) (hd : 0 ≤ decimal)
    (hval : (Float64.fin false m e).toRat * 10 ^ (min decimal 6).toNat = N)
    (hN : N = a * 2 ^ b) (ha : a < 2 ^ 53) (hlt : N < 2 ^ 63) :
    ∃ r : Int, floatToBigInt (.fin false m e) decimal = some r ∧
      (r : ℚ) = (Float64.fin false m e).toRat * 10 ^ decimal.toNat := by
  simp only [Float64.toRat, Bool.false_eq_true, if_false, one_mul] at hval ⊢
  obtain ⟨k, rfl⟩ := Int.eq_ofNat_of_zero_le hd
  by_cases h6 : (k : Int) < 6
  · have hk : k ≤ 6 := by omega
    have hmin : (min (k : Int) 6).toNat = k := by omega
    rw [hmin] at hval
    obtain ⟨M, E, hP, hME⟩ := pow10_exact k hk
    have hmul := mul_toInt64_exact m M e E N a b (by rw [hME]; exact hval) hN ha hlt
    refine ⟨N, ?_, ?_⟩
    · rw [floatToBigInt, if_pos h6, hP, hmul]
    · rw [Int.toNat_ofNat, hval]; norm_cast
  · have hmin : (min (k : Int) 6).toNat = 6 := by omega
    rw [hmin] at hval
    obtain ⟨M, E, hP, hME⟩ := pow10_exact 6 le_rfl
    have hmul := mul_toInt64_exact m M e E N a b (by rw [hME]; exact hval) hN ha hlt
    refine ⟨N * 10 ^ ((k : Int) - 6).toNat, ?_, ?_⟩
    · rw [floatToBigInt, if_neg h6]
      have hP' : Pow10 6 = .fin false M E := by exact_mod_cast hP
      rw [hP', hmul]
    · obtain ⟨j, rfl⟩ : ∃ j : Nat, k = 6 + j := ⟨k - 6, by omega⟩
      have e1 : (((6 + j : Nat) : Int) - 6).toNat = j := by omega
      rw [e1, Int.toNat_ofNat, pow_add, ← mul_assoc, hval]
      push_cast
      ring

theorem floatToBigInt_multiple (amount : Float64) (decimal r : Int) (h6 : 6 ≤ decimal)
    (h : floatToBigInt amount decimal = some r) : (10 : Int) ^ (decimal - 6).toNat ∣ r := by
  rw [floatToBigInt, if_neg (by omega)] at h
  cases hc : (amount.mul (Pow10 6)).toInt64 with
  | none => rw [hc] at h; simp at h
  | some x =>
    rw [hc] at h
    simp only [Option.some.injEq] at h
    exact ⟨x, by rw [← h]; ring⟩

theorem roundNearestEven_fin (neg : Bool) (num den : Nat) (hnum : num ≠ 0)
    (hL : floorLog2 num den - 52 ≤ 970) :
    ∃ m, roundNearestEven neg num den =
      .fin neg m (max (floorLog2 num den - 52) (-1074)) := by
  unfold roundNearestEven
  rw [if_neg hnum]
  simp only []
  rw [if_neg]
  · exact ⟨_, rfl⟩
  · intro h
    rcases h with h | ⟨h, -⟩ <;> omega

/-- In the normal range and below `2 ^ 63`, rounding to `float64` changes a positive
quotient by at most the fraction `2 ^ (-53)` of it. -/
theorem roundNearestEven_rel (num den : Nat) (hnum : 0 < num) (hden : 0 < den)
    (hlow : (2 : ℚ) ^ (-1022 : Int) ≤ (num : ℚ) / den)
    (hhigh : (num : ℚ) / den < (2 : ℚ) ^ (63 : Int)) :
    ∃ m e, roundNearestEven false num den = .fin false m e ∧
      |(m : ℚ) * (2 : ℚ) ^ e - (num : ℚ) / den| ≤ (num : ℚ) / den / 2 ^ 53 := by
  obtain ⟨h1, h2⟩ := floorLog2_spec num den hnum hden
  have hL63 : floorLog2 num den < 63 := by
    by_contra hc
    have : (2 : ℚ) ^ (63 : Int) ≤ (2 : ℚ) ^ floorLog2 num den :=
      zpow_le_zpow_right₀ (by norm_num) (by omega)
    exact absurd (lt_of_le_of_lt (le_trans this h1) hhigh) (lt_irrefl _)
  have hLlow : -1022 ≤ floorLog2 num den := by
    by_contra hc
    have : (2 : ℚ) ^ (floorLog2 num den + 1) ≤ (2 : ℚ) ^ (-1022 : Int) :=
      zpow_le_zpow_right₀ (by norm_num) (by omega)
    exact absurd (lt_of_lt_of_le h2 this) (not_lt.2 hlow)
  obtain ⟨m, hm⟩ := roundNearestEven_fin false num den (by omega) (by omega)
  have hmax : max (floorLog2 num den - 52) (-1074) = floorLog2 num den - 52 := by omega
  rw [hmax] at hm
  refine ⟨m, _, hm, ?_⟩
  obtain ⟨-, herr⟩ := roundNearestEven_error false false num den m _ hden (by omega) hm
  have hsplit : (2 : ℚ) ^ (floorLog2 num den - 52) = (2 : ℚ) ^ floorLog2 num den / 2 ^ 52 := by
    rw [zpow_sub₀ (by norm_num : (2 : ℚ) ≠ 0)]
    norm_num
  rw [hsplit] at herr ⊢
  have : (2 : ℚ) ^ floorLog2 num den / 2 ^ 52 / 2 ≤ (num : ℚ) / den / 2 ^ 53 := by
    rw [div_div, div_le_div_iff₀ (by positivity) (by positivity)]
    have : (2 : ℚ) ^ 52 * 2 = 2 ^ 53 := by norm_num
    rw [this]
    exact mul_le_mul_of_nonneg_right h1 (by positivity)
  linarith

/-- The conversion `int64(x)` of a finite non-negative `float64` whose value lies
strictly between `N - 1` and `N + 1` gives `N` or `N - 1`. -/
theorem toInt64_near (m : Nat) (e : Int) (N : Nat) (hN1 : 1 ≤ N) (hN : N < 2 ^ 62)
    (hlo : (N : ℚ) - 1 < (m : ℚ) * (2 : ℚ) ^ e) (hhi : (m : ℚ) * (2 : ℚ) ^ e < (N : ℚ) + 1) :
    (Float64.fin false m e).toInt64 = some (N : Int) ∨
    (Float64.fin false m e).toInt64 = some ((N : Int) - 1) := by
  have hv : (m : ℚ) * (2 : ℚ) ^ e =
      ((m * 2 ^ e.toNat : Nat) : ℚ) / ((2 ^ (-e).toNat : Nat) : ℚ) := by
    rw [two_zpow_split e]; push_cast; ring
  have hfloor := Nat.floor_div_eq_div (α := ℚ) (m * 2 ^ e.toNat) (2 ^ (-e).toNat)
  have hnonneg : (0 : ℚ) ≤ ((m * 2 ^ e.toNat : Nat) : ℚ) / ((2 ^ (-e).toNat : Nat) : ℚ) := by
    positivity
  have h1 := Nat.floor_le hnonneg
  have h2 := Nat.lt_floor_add_one
    (((m * 2 ^ e.toNat : Nat) : ℚ) / ((2 ^ (-e).toNat : Nat) : ℚ))
  rw [hfloor, ← hv] at h1 h2
  have hform : (Float64.fin false m e).toInt64 =
      (if -(2 : Int) ^ 63 ≤ ((m * 2 ^ e.toNat / 2 ^ (-e).toNat : Nat) : Int) ∧
          ((m * 2 ^ e.toNat / 2 ^ (-e).toNat : Nat) : Int) < (2 : Int) ^ 63
        then some ((m * 2 ^ e.toNat / 2 ^ (-e).toNat : Nat) : Int) else none) := by
    simp [Float64.toInt64]
  rw [hform]
  generalize m * 2 ^ e.toNat / 2 ^ (-e).toNat = t at h1 h2
  have ht1 : t < N + 1 := by
    have : (t : ℚ) < (N : ℚ) + 1 := lt_of_le_of_lt h1 hhi
    exact_mod_cast this
  have ht2 : N < t + 2 := by
    have : (N : ℚ) < (t : ℚ) + 2 := by linarith
    exact_mod_cast this
  have hrange : -(2 : Int) ^ 63 ≤ (t : Int) ∧ (t : Int) < (2 : Int) ^ 63 := by
    constructor
    · have : (0 : Int) ≤ (t : Int) := Int.natCast_nonneg t
      omega
    · have : t < 2 ^ 63 := by omega
      exact_mod_cast this
  rw [if_pos hrange]
  have hcases : t = N ∨ t + 1 = N := by omega
  rcases hcases with h | h
  · left; rw [h]
  · right
    have hN' : (N : Int) - 1 = (t : Int) := by omega
    rw [hN']

/-- A `float64` product whose exact value is within the fraction `2 ^ (-53)` of a whole
number `N` between 1 and `2 ^ 51` converts to `N` or to `N - 1`. -/
theorem mul_toInt64_near (m M : Nat) (e E : Int) (N : Nat) (hN1 : 1 ≤ N) (hN : N ≤ 2 ^ 51)
    (hclose : |(m : ℚ) * (2 : ℚ) ^ e * ((M : ℚ) * (2 : ℚ) ^ E) - N| ≤ (N : ℚ) / 2 ^ 53) :
    ((Float64.fin false m e).mul (.fin false M E)).toInt64 = some (N : Int) ∨
    ((Float64.fin false m e).mul (.fin false M E)).toInt64 = some ((N : Int) - 1) := by
  have hNq1 : (1 : ℚ) ≤ N := by exact_mod_cast hN1
  have hNq : (N : ℚ) ≤ 2 ^ 51 := by exact_mod_cast hN
  have hp : (m : ℚ) * (2 : ℚ) ^ e * ((M : ℚ) * (2 : ℚ) ^ E) =
      ((m * M * 2 ^ (e + E).toNat : Nat) : ℚ) / ((2 ^ (-(e + E)).toNat : Nat) : ℚ) := by
    have : (2 : ℚ) ^ e * (2 : ℚ) ^ E = (2 : ℚ) ^ (e + E) :=
      (zpow_add₀ (by norm_num : (2 : ℚ) ≠ 0) e E).symm
    calc (m : ℚ) * (2 : ℚ) ^ e * ((M : ℚ) * (2 : ℚ) ^ E)
        = (m : ℚ) * M * ((2 : ℚ) ^ e * (2 : ℚ) ^ E) := by ring
      _ = (m : ℚ) * M * (2 : ℚ) ^ (e + E) := by rw [this]
      _ = _ := by rw [two_zpow_split (e + E)]; push_cast; ring
  rw [hp] at hclose
  obtain ⟨hc1, hc2⟩ := abs_le.1 hclose
  have hsmall : (N : ℚ) / 2 ^ 53 ≤ 1 / 4 := by
    rw [div_le_iff₀ (by positivity)]
    have : (1 : ℚ) / 4 * 2 ^ 53 = 2 ^ 51 := by norm_num
    rw [this]; exact hNq
  have hden : 0 < 2 ^ (-(e + E)).toNat := by positivity
  have hnum : 0 < m * M * 2 ^ (e + E).toNat := by
    rcases Nat.eq_zero_or_pos (m * M * 2 ^ (e + E).toNat) with h0 | h0
    · rw [h0] at hc1
      simp only [Nat.cast_zero, zero_div] at hc1
      linarith
    · exact h0
  have hlow : (2 : ℚ) ^ (-1022 : Int) ≤
      ((m * M * 2 ^ (e + E).toNat : Nat) : ℚ) / ((2 ^ (-(e + E)).toNat : Nat) : ℚ) := by
    have h1 : (2 : ℚ) ^ (-1022 : Int) ≤ (2 : ℚ) ^ (-1 : Int) :=
      zpow_le_zpow_right₀ (by norm_num) (by norm_num)
    have h2 : (2 : ℚ) ^ (-1 : Int) = 1 / 2 := by norm_num
    rw [h2] at h1
    linarith
  have hhigh : ((m * M * 2 ^ (e + E).toNat : Nat) : ℚ) / ((2 ^ (-(e + E)).toNat : Nat) : ℚ) <
      (2 : ℚ) ^ (63 : Int) := by
    have h2 : (2 : ℚ) ^ (63 : Int) = 2 ^ 63 := by norm_num
    rw [h2]
    have : (2 : ℚ) ^ 51 + 1 / 4 < 2 ^ 63 := by norm_num
    linarith
  obtain ⟨m', e', hmul, herr⟩ := roundNearestEven_rel _ _ hnum hden hlow hhigh
  have hmulEq : (Float64.fin false m e).mul (.fin false M E) = .fin false m' e' := by
    simp only [Float64.mul, Bool.xor_false]
    exact hmul
  rw [hmulEq]
  obtain ⟨he1, he2⟩ := abs_le.1 herr
  generalize ((m * M * 2 ^ (e + E).toNat : Nat) : ℚ) / ((2 ^ (-(e + E)).toNat : Nat) : ℚ) = p
    at hc1 hc2 he1 he2
  have hpN : p / 2 ^ 53 ≤ 1 / 2 := by
    rw [div_le_iff₀ (by positivity)]
    have : (1 : ℚ) / 2 * 2 ^ 53 = 2 ^ 52 := by norm_num
    rw [this]
    have : (2 : ℚ) ^ 51 + 1 / 4 ≤ 2 ^ 52 := by norm_num
    linarith
  apply toInt64_near m' e' N hN1 (by omega)
  · linarith
  · linarith

/-- The `float64` nearest to `num / den`, multiplied by `10 ^ k` and converted to
`int64`, is the whole number `N = num / den * 10 ^ k` or falls one short of it. -/
theorem ofRatio_mul_pow10 (num den k N : Nat) (hk : k ≤ 6) (hden : 0 < den)
    (hval : (num : ℚ) / den * 10 ^ k = N) (hN : N ≤ 2 ^ 51) :
    ((Float64.ofRatio num den).mul (Pow10 (k : Int))).toInt64 = some (N : Int) ∨
    ((Float64.ofRatio num den).mul (Pow10 (k : Int))).toInt64 = some ((N : Int) - 1) := by
  obtain ⟨M, E, hP, hME⟩ := pow10_exact k hk
  have hdq : (0 : ℚ) < den := by exact_mod_cast hden
  have h10 : (0 : ℚ) < 10 ^ k := by positivity
  rcases Nat.eq_zero_or_pos N with hN0 | hNpos
  · subst hN0
    have hnum : num = 0 := by
      simp only [Nat.cast_zero, mul_eq_zero, div_eq_zero_iff, Nat.cast_eq_zero] at hval
      rcases hval with (h | h) | h
      · exact h
      · omega
      · exact absurd h (ne_of_gt h10)
    subst hnum
    left
    rw [hP]
    simp [Float64.ofRatio, roundNearestEven, Float64.mul, Float64.toInt64]
  · have hNq1 : (1 : ℚ) ≤ N := by exact_mod_cast hNpos
    have hNq : (N : ℚ) ≤ 2 ^ 51 := by exact_mod_cast hN
    have hx : (num : ℚ) / den = N / 10 ^ k := by
      rw [eq_div_iff (ne_of_gt h10)]; exact hval
    have hnum : 0 < num := by
      rcases Nat.eq_zero_or_pos num with h0 | h0
      · rw [h0] at hval
        simp only [Nat.cast_zero, zero_div, zero_mul] at hval
        linarith
      · exact h0
    have h10le : (10 : ℚ) ^ k ≤ 10 ^ 6 := pow_le_pow_right₀ (by norm_num) hk
    have h10ge : (1 : ℚ) ≤ 10 ^ k := one_le_pow₀ (by norm_num)
    have hxlow : (1 : ℚ) / 10 ^ 6 ≤ (num : ℚ) / den := by
      rw [hx, div_le_div_iff₀ (by positivity) h10]
      nlinarith
    have hxhigh : (num : ℚ) / den ≤ N := by
      rw [hx, div_le_iff₀ h10]
      nlinarith
    have hlow : (2 : ℚ) ^ (-1022 : Int) ≤ (num : ℚ) / den := by
      have h1 : (2 : ℚ) ^ (-1022 : Int) ≤ (2 : ℚ) ^ (-20 : Int) :=
        zpow_le_zpow_right₀ (by norm_num) (by norm_num)
      have h2 : (2 : ℚ) ^ (-20 : Int) ≤ 1 / 10 ^ 6 := by norm_num
      linarith
    have hhigh : (num : ℚ) / den < (2 : ℚ) ^ (63 : Int) := by
      have h2 : (2 : ℚ) ^ (63 : Int) = 2 ^ 63 := by norm_num
      rw [h2]
      have : (2 : ℚ) ^ 51 < 2 ^ 63 := by norm_num
      linarith
    obtain ⟨m, e, hround, herr⟩ := roundNearestEven_rel num den hnum hden hlow hhigh
    have hof : Float64.ofRatio num den = .fin false m e := hround
    rw [hof, hP]
    apply mul_toInt64_near m M e E N hNpos hN
    rw [hME]
    have hfac : (m : ℚ) * (2 : ℚ) ^ e * 10 ^ k - N =
        ((m : ℚ) * (2 : ℚ) ^ e - (num : ℚ) / den) * 10 ^ k := by
      rw [sub_mul, hval]
    rw [hfac, abs_mul, abs_of_pos h10]
    calc |(m : ℚ) * (2 : ℚ) ^ e - (num : ℚ) / den| * 10 ^ k
        ≤ (num : ℚ) / den / 2 ^ 53 * 10 ^ k := mul_le_mul_of_nonneg_right herr h10.le
      _ = (N : ℚ) / 2 ^ 53 := by rw [← hval]; ring

/-- An amount given as the `float64` nearest to a non-negative rational `num / den`
whose product with `10 ^ min(decimal, 6)` is a whole number `N ≤ 2 ^ 51`:
`floatToBigInt` returns `N * 10 ^ (decimal - min(decimal, 6))` or one unit of
`10 ^ (decimal - min(decimal, 6))` less. -/
theorem floatToBigInt_near_aux (num den : Nat) (decimal : Int) (N : Nat) (hden : 0 < den)
    (hd : 0 ≤ decimal)
    (hval : (num : ℚ) / den * 10 ^ (min decimal 6).toNat = N) (hN : N ≤ 2 ^ 51) :
    ∃ r : Int, floatToBigInt (Float64.ofRatio num den) decimal = some r ∧
      (r = (N : Int) * 10 ^ (decimal - min decimal 6).toNat ∨
       r = ((N : Int) - 1) * 10 ^ (decimal - min decimal 6).toNat) := by
  obtain ⟨k, rfl⟩ := Int.eq_ofNat_of_zero_le hd
  by_cases h6 : (k : Int) < 6
  · have hk : k ≤ 6 := by omega
    have hmin : (min (k : Int) 6).toNat = k := by omega
    have hsub : ((k : Int) - min (k : Int) 6).toNat = 0 := by omega
    rw [hmin] at hval
    rw [hsub, pow_zero, mul_one, mul_one, floatToBigInt, if_pos h6]
    rcases ofRatio_mul_pow10 num den k N hk hden hval hN with h | h
    · exact ⟨_, h, Or.inl rfl⟩
    · exact ⟨_, h, Or.inr rfl⟩
  · have hmin : (min (k : Int) 6).toNat = 6 := by omega
    have hmin' : min (k : Int) 6 = 6 := by omega
    rw [hmin] at hval
    rw [hmin', floatToBigInt, if_neg h6]
    rcases ofRatio_mul_pow10 num den 6 N le_rfl hden hval hN with h | h
    · have h' : ((Float64.ofRatio num den).mul (Pow10 6)).toInt64 = some (N : Int) := by
        exact_mod_cast h
      rw [h']
      exact ⟨_, rfl, Or.inl rfl⟩
    · have h' : ((Float64.ofRatio num den).mul (Pow10 6)).toInt64 = some ((N : Int) - 1) := by
        exact_mod_cast h
      rw [h']
      exact ⟨_, rfl, Or.inr rfl⟩

/-- C10 refuted: 0.29 has two fractional digits and `0.29 * 10 ^ 2 = 29` fits in an
`int64`, yet `floatToBigInt(0.29, 2)` is 28, because the `float64` nearest to 0.29 lies
below it and the conversion truncates. Whole amounts fail too: 9007199254740994 (with
`decimal = 1`) and 576460752305 (with `decimal = 6`) are `float64` values whose scaled
values 90071992547409940 and 576460752305000000 fit in an `int64`, but
`floatToBigInt` returns 90071992547409936 and 576460752304999936, the `float64`
product being rounded to 53 significant bits before the conversion. -/
theorem floatToBigInt_counterexample :
    Float64.ofRatio 29 100 = .fin false 5224175567749775 (-54) ∧
    (Float64.fin false 5224175567749775 (-54)).toRat < 29 / 100 ∧
    floatToBigInt (Float64.ofRatio 29 100) 2 = some 28 ∧
    (28 : Int) ≠ 29 ∧
    (Float64.fin false 4503599627370497 1).isFloat64 = true ∧
    (Float64.fin false 4503599627370497 1).toRat = 9007199254740994 ∧
    ((9007199254740994 * 10 ^ 1 : Nat) : Int) < 2 ^ 63 ∧
    floatToBigInt (.fin false 4503599627370497 1) 1 = some 90071992547409936 ∧
    (90071992547409936 : Int) ≠ 9007199254740994 * 10 ^ 1 ∧
    (Float64.fin false 576460752305 0).isFloat64 = true ∧
    (Float64.fin false 576460752305 0).toRat = 576460752305 ∧
    ((576460752305 * 10 ^ 6 : Nat) : Int) < 2 ^ 63 ∧
    floatToBigInt (.fin false 576460752305 0) 6 = some 576460752304999936 ∧
    (576460752304999936 : Int) ≠ 576460752305 * 10 ^ 6 := by
  refine ⟨by decide, by norm_num [Float64.toRat], by decide, by decide, by decide,
    by norm_num [Float64.toRat], by decide, by decide, by decide, by decide,
    by norm_num [Float64.toRat], by decide, by decide, by decide⟩

/-- C10 as amended: `floatToBigInt(1, 4) = 10000`, `floatToBigInt(1.234, 4) = 12340`
and `floatToBigInt(0.29, 2) = 28`. For every non-negative `decimal`, with
`k = min(decimal, 6)`:
(a) if the exact binary value of a non-negative `float64` amount, times `10 ^ k`, is a
whole number `N` below `2 ^ 63` that a `float64` holds exactly (`N = a * 2 ^ b` with
`a < 2 ^ 53`), then `floatToBigInt(amount, decimal)` is `amount * 10 ^ decimal` exactly;
(b) if the amount is the `float64` nearest to a non-negative rational `num / den` (such
as a decimal numeral with at most `k` fractional digits) and `num / den * 10 ^ k` is a
whole number `N ≤ 2 ^ 51`, then `floatToBigInt(amount, decimal)` is
`N * 10 ^ (decimal - k)`, which is `num / den * 10 ^ decimal`, or one unit of
`10 ^ (decimal - k)` less;
(c) for `decimal ≥ 6` every result is a multiple of `10 ^ (decimal - 6)`. -/
theorem floatToBigInt_exact :
    floatToBigInt (.fin false 1 0) 4 = some 10000 ∧
    floatToBigInt (Float64.ofRatio 1234 1000) 4 = some 12340 ∧
    floatToBigInt (Float64.ofRatio 29 100) 2 = some 28 ∧
    (∀ (m : Nat) (e decimal : Int) (N a b : Nat), 0 ≤ decimal →
      (Float64.fin false m e).toRat * 10 ^ (min decimal 6).toNat = N →
      N = a * 2 ^ b → a < 2 ^ 53 → N < 2 ^ 63 →
      ∃ r : Int, floatToBigInt (.fin false m e) decimal = some r ∧
        (r : ℚ) = (Float64.fin false m e).toRat * 10 ^ decimal.toNat) ∧
    (∀ (num den : Nat) (decimal : Int) (N : Nat), 0 < den → 0 ≤ decimal →
      (num : ℚ) / den * 10 ^ (min decimal 6).toNat = N → N ≤ 2 ^ 51 →
      ∃ r : Int, floatToBigInt (Float64.ofRatio num den) decimal = some r ∧
        (r = (N : Int) * 10 ^ (decimal - min decimal 6).toNat ∨
         r = ((N : Int) - 1) * 10 ^ (decimal - min decimal 6).toNat)) ∧
    (∀ (amount : Float64) (decimal r : Int), 6 ≤ decimal →
      floatToBigInt amount decimal = some r → (10 : Int) ^ (decimal - 6).toNat ∣ r) :=
  ⟨by decide, by decide, by decide, floatToBigInt_exact_aux, floatToBigInt_near_aux,
    floatToBigInt_multiple⟩

/-- Witness of C10 as amended: for (a) the amount 1.5 (`3 * 2 ^ (-1)`) with
`decimal = 18`, where `1.5 * 10 ^ 6 = 1500000 = 1500000 * 2 ^ 0`; for (b) the amount
0.29 (`29 / 100`) with `decimal = 2`, where `N = 29`. -/
theorem floatToBigInt_exact_witness :
    (∃ r : Int, floatToBigInt (.fin false 3 (-1)) 18 = some r ∧
      (r : ℚ) = (Float64.fin false 3 (-1)).toRat * 10 ^ (18 : Int).toNat) ∧
    (∃ r : Int, floatToBigInt (Float64.ofRatio 29 100) 2 = some r ∧
      (r = ((29 : Nat) : Int) * 10 ^ ((2 : Int) - min (2 : Int) 6).toNat ∨
       r = (((29 : Nat) : Int) - 1) * 10 ^ ((2 : Int) - min (2 : Int) 6).toNat)) :=
  ⟨floatToBigInt_exact.2.2.2.1 3 (-1) 18 1500000 1500000 0 (by decide)
      (by rw [show (min (18 : Int) 6).toNat = 6 from by decide]; norm_num [Float64.toRat])
      (by norm_num) (by norm_num) (by norm_num),
    floatToBigInt_exact.2.2.2.2.1 29 100 2 29 (by decide) (by decide)
      (by rw [show (min (2 : Int) 6).toNat = 2 from by decide]; norm_num) (by norm_num)⟩

/-- For a whole amount `n` with `n * 10 ^ 6 < 2 ^ 53`, `EthToWei` returns
`n * 10 ^ 18`. -/
theorem EthToWei_whole (n : Nat) (h : n * 10 ^ 6 < 2 ^ 53) :
    EthToWei (.fin false n 0) = some ((n : Int) * 10 ^ 18) := by
  obtain ⟨r, hr, hval⟩ := floatToBigInt_exact_aux n 0 18 (n * 10 ^ 6) (n * 10 ^ 6) 0
    (by decide)
    (by rw [show (min (18 : Int) 6).toNat = 6 from by decide]
        simp only [Float64.toRat, Bool.false_eq_true, if_false, one_mul, zpow_zero, mul_one]
        push_cast; rfl)
    (by simp) h (by omega)
  rw [EthToWei, hr]
  have h18 : (18 : Int).toNat = 18 := by decide
  rw [h18] at hval
  simp only [Float64.toRat, Bool.false_eq_true, if_false, one_mul, zpow_zero, mul_one] at hval
  have : r = (n : Int) * 10 ^ 18 := by exact_mod_cast hval
  rw [this]

/-- C11, the code at the failing input: `EthToWei(1)` is `10 ^ 18`, the number of Wei in
one Ether, and not `10 ^ 9`, the number of Wei in one Gwei that the comment on the
function announces. -/
theorem EthToWei_one :
    EthToWei (.fin false 1 0) = some 1000000000000000000 ∧
    (1000000000000000000 : Int) ≠ 1 * 10 ^ 9 := by
  refine ⟨by decide, by decide⟩

end Blockchain

namespace HuobiImport

/-! ## Properties of the trade history import -/

/-- The record of a line carries the value of `orderAmount` after the line, which is
field 10 of the line if the line has more than 10 fields and the value before the line
otherwise. -/
theorem importRow_next (env : Env) (row : List String) (orderAmount orderAmount' : String)
    (th : TradeHistory) (h : importRow env row orderAmount = .next orderAmount' th) :
    th.Amount = orderAmount' ∧
    orderAmount' = (if 10 < row.length then row.getD 10 "" else orderAmount) := by
  unfold importRow at h
  iterate 8 (split at h <;> try cases h)
  simp only [] at h
  split at h
  · simp only [RowOutcome.next.injEq] at h
    obtain ⟨h1, h2⟩ := h
    subst h2
    exact ⟨h1, h1.symm⟩
  · cases h

/-- The records `ReadAll` returns are the records it is given, and they all have the
same number of fields. -/
theorem ReadAll_ok (records lines : List (List String)) (h : ReadAll records = .ok lines) :
    lines = records ∧ ∃ n, ∀ row ∈ lines, row.length = n := by
  unfold ReadAll at h
  cases records with
  | nil =>
    simp only [Except.ok.injEq] at h
    subst h
    exact ⟨rfl, 0, by simp⟩
  | cons first rest =>
    simp only [] at h
    split at h
    · rename_i hall
      simp only [Except.ok.injEq] at h
      subst h
      refine ⟨rfl, first.length, ?_⟩
      intro row hrow
      rcases List.mem_cons.1 hrow with rfl | hmem
      · rfl
      · simpa using (List.all_eq_true.1 hall) row hmem
    · cases h

/-- On lines that all have `n` fields, with `orderAmount` empty if `n ≤ 10`, the loop
gives every line a record whose `Amount` is field 10 of that line, or empty if there is
no such field. -/
theorem importLoop_uniform (env : Env) (n : Nat) (rows : List (List String)) :
    ∀ (id : Nat) (acc : List TradeHistory) (orderAmount : String)
      (tradeHistories : List TradeHistory),
      id ≠ 0 → (∀ row ∈ rows, row.length = n) → (n ≤ 10 → orderAmount = "") →
      importLoop env id rows acc orderAmount = .done tradeHistories →
      ∃ new, tradeHistories = acc ++ new ∧
        List.Forall₂ (fun row th => th.Amount = row.getD 10 "") rows new := by
  induction rows with
  | nil =>
    intro id acc oa ths _ _ _ h
    rw [importLoop] at h
    simp only [LoopOutcome.done.injEq] at h
    exact ⟨[], by simp [h], List.Forall₂.nil⟩
  | cons row rest ih =>
    intro id acc oa ths hid hlen hoa h
    rw [importLoop, if_neg hid] at h
    have hrow : row.length = n := hlen row (List.mem_cons_self _ _)
    cases hr : importRow env row oa with
    | panic => rw [hr] at h; cases h
    | fail err => rw [hr] at h; cases h
    | next oa' th =>
      rw [hr] at h
      simp only [] at h
      obtain ⟨hamount, hoa'⟩ := importRow_next env row oa oa' th hr
      have hkeep : n ≤ 10 → oa' = "" := by
        intro hn
        rw [hoa', if_neg (by omega)]
        exact hoa hn
      obtain ⟨new, hnew, hall⟩ := ih (id + 1) (acc ++ [th]) oa' ths (by omega)
        (fun r hr' => hlen r (List.mem_cons_of_mem _ hr')) hkeep h
      refine ⟨th :: new, by simp [hnew], List.Forall₂.cons ?_ hall⟩
      rw [hamount]
      by_cases h10 : 10 < row.length
      · rw [hoa', if_pos h10]
      · rw [hkeep (by omega)]
        exact (List.getD_eq_default _ _ (by omega)).symm

/-- C13: whenever `importTradeHistory` reaches `UpdateTradeHistory`, the list it hands
over has one record for every line of the file after the first, in order, so its length
is the number of lines minus the header line; and the `Amount` of the record of a line
is field 10 of that very line when the line has more than 10 fields, and the empty
string otherwise, whatever lines come before it. (`ReadAll` only returns lines of equal
field count, so the value that `orderAmount` keeps from one line to the next never
shows.) -/
theorem importTradeHistory_amount (env : Env) (file : Except Err (List (List String)))
    (tradeHistories : List TradeHistory) (err : Option Err)
    (h : importTradeHistory env file = .updated tradeHistories err) :
    ∃ lines, file = .ok lines ∧
      tradeHistories.length = lines.length - 1 ∧
      ∀ (i : Nat) (row : List String), lines[i + 1]? = some row →
        ∃ th, tradeHistories[i]? = some th ∧
          th.Amount = if h10 : 10 < row.length then row[10] else "" := by
  unfold importTradeHistory at h
  cases file with
  | error e => cases h
  | ok records =>
    simp only [] at h
    cases hread : ReadAll records with
    | error e => rw [hread] at h; cases h
    | ok lines =>
      rw [hread] at h
      simp only [] at h
      obtain ⟨hlines, n, hn⟩ := ReadAll_ok records lines hread
      subst hlines
      refine ⟨lines, rfl, ?_⟩
      cases hloop : importLoop env 0 lines [] "" with
      | panic => rw [hloop] at h; cases h
      | fail e => rw [hloop] at h; cases h
      | done ths =>
        rw [hloop] at h
        simp only [ImportOutcome.updated.injEq] at h
        obtain ⟨hths, -⟩ := h
        subst hths
        cases lines with
        | nil =>
          rw [importLoop] at hloop
          simp only [LoopOutcome.done.injEq] at hloop
          subst hloop
          exact ⟨rfl, by intro i row hi; simp at hi⟩
        | cons header data =>
          rw [importLoop, if_pos rfl] at hloop
          obtain ⟨new, hnew, hall⟩ := importLoop_uniform env n data 1 [] "" ths (by omega)
            (fun r hr => hn r (List.mem_cons_of_mem _ hr)) (fun _ => rfl) hloop
          simp only [List.nil_append] at hnew
          subst hnew
          refine ⟨by simpa using hall.length_eq.symm, ?_⟩
          intro i row hi
          simp only [List.getElem?_cons_succ] at hi
          obtain ⟨th, hth, hA⟩ := Tradelogs.forall₂_getElem? hall i row hi
          refine ⟨th, hth, ?_⟩
          rw [hA]
          split
          · rename_i h10
            exact List.getD_eq_getElem _ _ h10
          · exact List.getD_eq_default _ _ (by omega)

/-- Witness of C13: a file with a header and two lines of eleven fields. -/
theorem importTradeHistory_amount_witness :
    importTradeHistory sampleEnv
        (.ok [sampleHeader, sampleLine "1" "5.0", sampleLine "2" "7.5"]) =
      .updated [sampleTradeHistory 1 "5.0", sampleTradeHistory 2 "7.5"] none ∧
    ∃ lines, (.ok [sampleHeader, sampleLine "1" "5.0", sampleLine "2" "7.5"] :
        Except Err (List (List String))) = .ok lines ∧
      [sampleTradeHistory 1 "5.0", sampleTradeHistory 2 "7.5"].length = lines.length - 1 ∧
      ∀ (i : Nat) (row : List String), lines[i + 1]? = some row →
        ∃ th, [sampleTradeHistory 1 "5.0", sampleTradeHistory 2 "7.5"][i]? = some th ∧
          th.Amount = if h10 : 10 < row.length then row[10] else "" :=
  ⟨by decide,
    importTradeHistory_amount sampleEnv
      (.ok [sampleHeader, sampleLine "1" "5.0", sampleLine "2" "7.5"])
      [sampleTradeHistory 1 "5.0", sampleTradeHistory 2 "7.5"] none (by decide)⟩

/-- A file whose lines all have ten fields gives records with an empty `Amount`. -/
theorem importTradeHistory_short_lines :
    importTradeHistory sampleEnv
        (.ok [sampleShortLine "id", sampleShortLine "1", sampleShortLine "2"]) =
      .updated [sampleTradeHistory 1 "", sampleTradeHistory 2 ""] none := by
  decide

/-- The loop by itself keeps `orderAmount` from one line to the next: handed a line of
eleven fields followed by a line of ten, it gives the second record the amount of the
first. `importTradeHistory` never runs the loop on such lines, because `ReadAll`
rejects the file. -/
theorem importLoop_keeps_orderAmount :
    importLoop sampleEnv 0 [sampleHeader, sampleLine "1" "5.0", sampleShortLine "2"] [] "" =
      .done [sampleTradeHistory 1 "5.0", sampleTradeHistory 2 "5.0"] ∧
    importTradeHistory sampleEnv
        (.ok [sampleHeader, sampleLine "1" "5.0", sampleShortLine "2"]) =
      .early ErrFieldCount := by
  refine ⟨by decide, by decide⟩

end HuobiImport
